import Mathlib

/-!
Verification development for the chessConsole board engine
(`src/main.ts`, the complete draft with castling).

The TypeScript source keeps the board as a flat JavaScript array of 64
entries, each either the number `0` (an empty cell) or a `Piece` object.
Plain JavaScript array indexing is used throughout, so a read outside
`[0, 63]` yields `undefined`; we model cell reads with the three-valued
type `JSVal` (`undef` / `empty` / `piece`).  Coordinates are 1-indexed
`(row, col)` pairs of (unbounded) integers, exactly as in the source.
-/

inductive IColor where
  | white : IColor
  | black : IColor
deriving DecidableEq, Repr

inductive IName where
  | king : IName
  | queen : IName
  | knight : IName
  | bishop : IName
  | rook : IName
  | pawn : IName
deriving DecidableEq, Repr

/-- The fields of the source's `Piece` class that the engine logic reads:
`_name`, `_color` and the mutable `hasMovedOnce` flag (the score and the
display glyph are render-only and never consulted by move logic). -/
structure Piece where
  name : IName
  color : IColor
  hasMovedOnce : Bool := false
deriving DecidableEq, Repr

/-- `new Piece(name, color)`: the constructor initialises `hasMovedOnce = false`. -/
def mkPiece (n : IName) (c : IColor) : Piece := { name := n, color := c }

/-- `_canJump` is set true only in the `knight` branch of the constructor. -/
def Piece.canJump (p : Piece) : Bool := p.name = IName.knight

/-- The value a JavaScript read of a board slot can produce:
`undef` for an index outside the populated store, `empty` for the number
`0`, or a piece. -/
inductive JSVal where
  | undef : JSVal
  | empty : JSVal
  | piece : Piece → JSVal
deriving DecidableEq, Repr

/-- `IBoardCoordinate`: 1-indexed `{row, col}`. -/
structure Coord where
  row : Int
  col : Int
deriving DecidableEq, Repr

/-- `convert2DIndexTo1D(row, col) = (row - 1) * 8 + col - 1`.
No bounds check happens anywhere in the source. -/
def convert2DIndexTo1D (row col : Int) : Int :=
  (row - 1) * 8 + col - 1

/-- A JavaScript read `arr[i]`: the stored value inside `[0, arr.length)`,
`undefined` outside. -/
def jsGet (b : List JSVal) (i : Int) : JSVal :=
  if 0 ≤ i then ((b.get? i.toNat).getD JSVal.undef) else JSVal.undef

/-- A JavaScript write `arr[i] = v`, restricted to the populated store.
(For `i ≥ arr.length` JavaScript would grow the array; the only code path
that can write past index 63 is the degenerate castling corner with the
king landing on the last cell, where the grown slot is never read back by
any statement modelled here, so the write is dropped.) -/
def jsSet (b : List JSVal) (i : Int) (v : JSVal) : List JSVal :=
  if 0 ≤ i then b.set i.toNat v else b

theorem length_jsSet (b : List JSVal) (i : Int) (v : JSVal) :
    (jsSet b i v).length = b.length := by
  unfold jsSet; split <;> simp

theorem list_get?_set_self {α : Type} (l : List α) (n : Nat) (v : α)
    (h : n < l.length) : (l.set n v).get? n = some v := by
  induction l generalizing n with
  | nil => simp at h
  | cons a t ih =>
    cases n with
    | zero => simp [List.set]
    | succ m => simpa [List.set] using ih m (by simpa using h)

theorem list_get?_set_other {α : Type} (l : List α) (n m : Nat) (v : α)
    (h : n ≠ m) : (l.set n v).get? m = l.get? m := by
  induction l generalizing n m with
  | nil => simp
  | cons a t ih =>
    cases n with
    | zero =>
      cases m with
      | zero => exact absurd rfl h
      | succ k => simp [List.set]
    | succ n' =>
      cases m with
      | zero => simp [List.set]
      | succ k => simpa [List.set] using ih n' k (fun hh => h (by omega))

theorem jsGet_jsSet_self (b : List JSVal) (i : Int) (v : JSVal)
    (h0 : 0 ≤ i) (h1 : i < (b.length : Int)) :
    jsGet (jsSet b i v) i = v := by
  unfold jsGet jsSet
  rw [if_pos h0, if_pos h0, list_get?_set_self]
  · rfl
  · omega

theorem jsGet_jsSet_other (b : List JSVal) (i j : Int) (v : JSVal)
    (h : i ≠ j) : jsGet (jsSet b i v) j = jsGet b j := by
  unfold jsGet jsSet
  by_cases hi : 0 ≤ i
  · by_cases hj : 0 ≤ j
    · rw [if_pos hi, if_pos hj, if_pos hj, list_get?_set_other]
      omega
    · simp [hj]
  · simp [hi]

theorem jsGet_eq_get? (b : List JSVal) (i : Int) (h0 : 0 ≤ i)
    (h1 : i < (b.length : Int)) :
    b.get? i.toNat = some (jsGet b i) := by
  unfold jsGet
  rw [if_pos h0]
  have hlt : i.toNat < b.length := by omega
  have h := List.get?_eq_get hlt
  rw [h]
  rfl

/-- Coordinates on the board land inside the 64-cell store. -/
theorem convert_range {r c : Int} (hr1 : 1 ≤ r) (hr8 : r ≤ 8)
    (hc1 : 1 ≤ c) (hc8 : c ≤ 8) :
    0 ≤ convert2DIndexTo1D r c ∧ convert2DIndexTo1D r c < 64 := by
  unfold convert2DIndexTo1D
  constructor <;> nlinarith

/-- On the board, the flat index determines the coordinates. -/
theorem convert_inj {r1 c1 r2 c2 : Int}
    (h3 : 1 ≤ c1) (h4 : c1 ≤ 8) (h7 : 1 ≤ c2) (h8 : c2 ≤ 8)
    (h : convert2DIndexTo1D r1 c1 = convert2DIndexTo1D r2 c2) :
    r1 = r2 ∧ c1 = c2 := by
  unfold convert2DIndexTo1D at h
  constructor <;> omega

/-!
## RayCaster (`Board.calculatePaths`)

Each of the eight loops of `calculatePaths` steps one cell at a time in a
fixed direction, the loop guard keeping the stepped-to cell on the board.
We materialise the sequence of stepped-to cells of each loop (at most 7
for an on-board origin, hence `List.range 7`) and share one walker over
that sequence, which performs exactly the loop body: an empty cell is
appended and the walk continues (unless `singleStep`, which breaks after
the first stepped-to cell), an occupant stops the walk and is appended
iff its color differs from the moving piece's color.
-/

/-- `for (let i = row - 1; i >= 1; i--)` over `(i, col)`. -/
def stepsTop (row col : Int) : List Coord :=
  (List.range 7).filterMap fun (k : Nat) =>
    let i := row - 1 - (k : Int)
    if 1 ≤ i then some ⟨i, col⟩ else none

/-- `for (let i = row + 1; i <= 8; i++)` over `(i, col)`. -/
def stepsBottom (row col : Int) : List Coord :=
  (List.range 7).filterMap fun (k : Nat) =>
    let i := row + 1 + (k : Int)
    if i ≤ 8 then some ⟨i, col⟩ else none

/-- `for (let i = col - 1; i >= 1; i--)` over `(row, i)`. -/
def stepsLeft (row col : Int) : List Coord :=
  (List.range 7).filterMap fun (k : Nat) =>
    let j := col - 1 - (k : Int)
    if 1 ≤ j then some ⟨row, j⟩ else none

/-- `for (let i = col + 1; i <= 8; i++)` over `(row, i)`. -/
def stepsRight (row col : Int) : List Coord :=
  (List.range 7).filterMap fun (k : Nat) =>
    let j := col + 1 + (k : Int)
    if j ≤ 8 then some ⟨row, j⟩ else none

/-- `while (i > 1 && j > 1) { i--; j--; ... }`. -/
def stepsTopLeft (row col : Int) : List Coord :=
  (List.range 7).filterMap fun (k : Nat) =>
    let i := row - 1 - (k : Int)
    let j := col - 1 - (k : Int)
    if 1 ≤ i ∧ 1 ≤ j then some ⟨i, j⟩ else none

/-- `while (i > 1 && j < 8) { i--; j++; ... }`. -/
def stepsTopRight (row col : Int) : List Coord :=
  (List.range 7).filterMap fun (k : Nat) =>
    let i := row - 1 - (k : Int)
    let j := col + 1 + (k : Int)
    if 1 ≤ i ∧ j ≤ 8 then some ⟨i, j⟩ else none

/-- `while (i < 8 && j > 1) { i++; j--; ... }`. -/
def stepsBottomLeft (row col : Int) : List Coord :=
  (List.range 7).filterMap fun (k : Nat) =>
    let i := row + 1 + (k : Int)
    let j := col - 1 - (k : Int)
    if i ≤ 8 ∧ 1 ≤ j then some ⟨i, j⟩ else none

/-- `while (i < 8 && j < 8) { i++; j++; ... }`. -/
def stepsBottomRight (row col : Int) : List Coord :=
  (List.range 7).filterMap fun (k : Nat) =>
    let i := row + 1 + (k : Int)
    let j := col + 1 + (k : Int)
    if i ≤ 8 ∧ j ≤ 8 then some ⟨i, j⟩ else none

/-- The shared loop body of the eight ray loops of `calculatePaths`.
A read outside the store (`undef`) cannot occur for an on-board origin;
in JavaScript it would throw on the subsequent `.color` access, so the
walk is modelled as stopping there. -/
def walkRay (b : List JSVal) (myColor : IColor) (singleStep : Bool) :
    List Coord → List Coord
  | [] => []
  | q :: rest =>
    match jsGet b (convert2DIndexTo1D q.row q.col) with
    | JSVal.piece p => if p.color ≠ myColor then [q] else []
    | JSVal.empty =>
        q :: (if singleStep then [] else walkRay b myColor singleStep rest)
    | JSVal.undef => []

/-- The record returned by `calculatePaths`. -/
structure Paths where
  top : List Coord
  right : List Coord
  bottom : List Coord
  left : List Coord
  topLeft : List Coord
  topRight : List Coord
  bottomLeft : List Coord
  bottomRight : List Coord
deriving DecidableEq, Repr

/-- `Board.calculatePaths(cell, selectedCell, singleStep = false)`. -/
def Board.calculatePaths (b : List JSVal) (cell : Piece)
    (selectedCell : Coord) (singleStep : Bool := false) : Paths :=
  let row := selectedCell.row
  let col := selectedCell.col
  { top := walkRay b cell.color singleStep (stepsTop row col)
    right := walkRay b cell.color singleStep (stepsRight row col)
    bottom := walkRay b cell.color singleStep (stepsBottom row col)
    left := walkRay b cell.color singleStep (stepsLeft row col)
    topLeft := walkRay b cell.color singleStep (stepsTopLeft row col)
    topRight := walkRay b cell.color singleStep (stepsTopRight row col)
    bottomLeft := walkRay b cell.color singleStep (stepsBottomLeft row col)
    bottomRight := walkRay b cell.color singleStep (stepsBottomRight row col) }

/-- The stepped-to cell holds the number `0`. -/
def cellIsEmpty (b : List JSVal) (q : Coord) : Bool :=
  jsGet b (convert2DIndexTo1D q.row q.col) == JSVal.empty

/-- Modelled from the spec: the RayCaster algorithm as §4.2 words it.
Walk the stepped-to cells in order (only the first one when
`singleStep`); the result is the leading run of empty cells followed by
the first non-empty cell iff that cell holds an occupant of the opposite
color (the capture square). -/
def raySpec (b : List JSVal) (myColor : IColor) (singleStep : Bool)
    (steps : List Coord) : List Coord :=
  let eff := if singleStep then steps.take 1 else steps
  let pre := eff.takeWhile (cellIsEmpty b)
  let rest := eff.dropWhile (cellIsEmpty b)
  pre ++
    (match rest.head? with
     | some q =>
         match jsGet b (convert2DIndexTo1D q.row q.col) with
         | JSVal.piece p => if p.color ≠ myColor then [q] else []
         | _ => []
     | none => [])

theorem walkRay_nil (b : List JSVal) (c : IColor) (ss : Bool) :
    walkRay b c ss [] = [] := rfl

theorem raySpec_cons_blocked (b : List JSVal) (myColor : IColor)
    (ss : Bool) (q : Coord) (rest : List Coord)
    (h : cellIsEmpty b q = false) :
    raySpec b myColor ss (q :: rest) =
      (match jsGet b (convert2DIndexTo1D q.row q.col) with
       | JSVal.piece p => if p.color ≠ myColor then [q] else []
       | _ => []) := by
  unfold raySpec
  cases ss <;> simp [List.takeWhile, List.dropWhile, h]

theorem raySpec_cons_empty_single (b : List JSVal) (myColor : IColor)
    (q : Coord) (rest : List Coord) (h : cellIsEmpty b q = true) :
    raySpec b myColor true (q :: rest) = [q] := by
  unfold raySpec
  simp [List.takeWhile, List.dropWhile, h]

theorem raySpec_cons_empty (b : List JSVal) (myColor : IColor)
    (q : Coord) (rest : List Coord) (h : cellIsEmpty b q = true) :
    raySpec b myColor false (q :: rest) = q :: raySpec b myColor false rest := by
  unfold raySpec
  simp [List.takeWhile, List.dropWhile, h]

/-- The loop of `calculatePaths` computes exactly the spec's ray:
the leading empties, plus the first blocker iff it is an enemy. -/
theorem walkRay_eq_raySpec (b : List JSVal) (myColor : IColor)
    (singleStep : Bool) (steps : List Coord) :
    walkRay b myColor singleStep steps = raySpec b myColor singleStep steps := by
  induction steps with
  | nil => cases singleStep <;> rfl
  | cons q rest ih =>
    rcases hq : jsGet b (convert2DIndexTo1D q.row q.col) with _ | _ | p
    · have hce : cellIsEmpty b q = false := by simp [cellIsEmpty, hq]
      rw [raySpec_cons_blocked b myColor singleStep q rest hce, hq]
      unfold walkRay
      rw [hq]
    · have hce : cellIsEmpty b q = true := by simp [cellIsEmpty, hq]
      cases singleStep
      · rw [raySpec_cons_empty b myColor q rest hce]
        unfold walkRay
        rw [hq, ← ih]
        simp
      · rw [raySpec_cons_empty_single b myColor q rest hce]
        unfold walkRay
        rw [hq]
        simp
    · have hce : cellIsEmpty b q = false := by simp [cellIsEmpty, hq]
      rw [raySpec_cons_blocked b myColor singleStep q rest hce, hq]
      unfold walkRay
      rw [hq]

/-!
## MoveRules (`Board.highlightMoves`) and the selection state machine

`highlightMovesAt` is the body of `Board.highlightMoves` given the board,
the selected coordinate and the selected piece (the source first clears
`_highlightedMoves` and bails out when `_selectedCell` is unset; the
state-level wrapper below does exactly that).
-/

/-- The final value of the local `piece` variable of a castling scan
loop: the loop overwrites `piece` with each cell read and breaks at the
first non-`0` value, so the final value is the first non-empty cell
along the scanned cells, or (when every scanned cell is empty, or there
is no cell to scan) an empty-cell value. -/
def scanList (b : List JSVal) : List Coord → JSVal
  | [] => JSVal.empty
  | q :: rest =>
    if cellIsEmpty b q then scanList b rest
    else jsGet b (convert2DIndexTo1D q.row q.col)

/-- `piece !== 0 && piece.name === "rook" && !piece.hasMovedOnce`.
(An out-of-store `undefined` would throw on `.name` in JavaScript; it is
modelled as failing the test, and cannot occur for on-board scans.) -/
def isUnmovedRook (v : JSVal) : Bool :=
  match v with
  | JSVal.piece q => q.name = IName.rook ∧ q.hasMovedOnce = false
  | _ => false

/-- The right castling scan: `for (let i = 1; col + i <= 8; i++)`. -/
def scanRight (b : List JSVal) (row col : Int) : JSVal :=
  scanList b (stepsRight row col)

/-- The left castling scan: `for (let i = 1; col - i >= 1; i++)`. -/
def scanLeft (b : List JSVal) (row col : Int) : JSVal :=
  scanList b (stepsLeft row col)

/-- The pawn's diagonal test on a single-step diagonal ray: if the ray is
non-empty, its first cell is offered iff it holds an enemy occupant
(`xCell !== 0 && xCell.color !== cell.color`). -/
def diagPick (b : List JSVal) (cell : Piece) : List Coord → List Coord
  | [] => []
  | q :: _ =>
    match jsGet b (convert2DIndexTo1D q.row q.col) with
    | JSVal.piece pc => if pc.color ≠ cell.color then [q] else []
    | _ => []

/-- The switch of `Board.highlightMoves`, producing the new
`_highlightedMoves` for the piece `cell` selected at `sel`. -/
def Board.highlightMovesAt (b : List JSVal) (sel : Coord) (cell : Piece) :
    List Coord :=
  let row := sel.row
  let col := sel.col
  match cell.name with
  | IName.pawn =>
    let direction : Int := if cell.color = IColor.white then 1 else -1
    let two := jsGet b (convert2DIndexTo1D (row - 2 * direction) col)
    let m2 : List Coord :=
      if two = JSVal.empty ∧ cell.hasMovedOnce = false then
        [⟨row - 2 * direction, col⟩] else []
    let one := jsGet b (convert2DIndexTo1D (row - 1 * direction) col)
    let m1 : List Coord :=
      if one = JSVal.empty then [⟨row - 1 * direction, col⟩] else []
    let P := Board.calculatePaths b cell sel true
    let diags :=
      if direction = 1 then diagPick b cell P.topLeft ++ diagPick b cell P.topRight
      else diagPick b cell P.bottomLeft ++ diagPick b cell P.bottomRight
    m2 ++ m1 ++ diags
  | IName.rook =>
    let P := Board.calculatePaths b cell sel
    P.top ++ P.right ++ P.bottom ++ P.left
  | IName.bishop =>
    let P := Board.calculatePaths b cell sel
    P.topLeft ++ P.topRight ++ P.bottomLeft ++ P.bottomRight
  | IName.knight =>
    let positions : List Coord :=
      [⟨row - 2, col - 1⟩, ⟨row - 2, col + 1⟩,
       ⟨row - 1, col - 2⟩, ⟨row - 1, col + 2⟩,
       ⟨row + 2, col + 1⟩, ⟨row + 2, col - 1⟩,
       ⟨row + 1, col - 2⟩, ⟨row + 1, col + 2⟩]
    positions.filter fun pos =>
      match jsGet b (convert2DIndexTo1D pos.row pos.col) with
      | JSVal.empty => true
      | JSVal.piece q => q.color ≠ cell.color
      | JSVal.undef => false
  | IName.queen =>
    let P := Board.calculatePaths b cell sel
    P.top ++ P.right ++ P.bottom ++ P.left ++
      P.topLeft ++ P.topRight ++ P.bottomLeft ++ P.bottomRight
  | IName.king =>
    let P := Board.calculatePaths b cell sel true
    let rays := P.top ++ P.right ++ P.bottom ++ P.left ++
      P.topLeft ++ P.topRight ++ P.bottomLeft ++ P.bottomRight
    if cell.hasMovedOnce then rays
    else
      let pr := scanRight b row col
      let movesR : List Coord :=
        if isUnmovedRook pr then [⟨row, col + 2⟩] else []
      -- the left loop reuses the `piece` variable of the right scan;
      -- with the king on column 1 the loop body never runs and the
      -- stale right-scan value is what the left test sees
      let pl := if 1 ≤ col - 1 then scanLeft b row col else pr
      let movesL : List Coord :=
        if isUnmovedRook pl then [⟨row, col - 2⟩] else []
      rays ++ movesR ++ movesL

/-- The mutable state of the `Board` class (the parts the engine logic
touches: `_board`, `_highlightedCell`, `_selectedCell`,
`_highlightedMoves`). -/
structure BoardState where
  board : List JSVal
  highlightedCell : Coord
  selectedCell : Option Coord
  highlightedMoves : List Coord
deriving DecidableEq, Repr

/-- `get moveMode() { return this._highlightedMoves.length > 0 }`. -/
def Board.moveMode (s : BoardState) : Bool :=
  s.highlightedMoves.length > 0

/-- `deselectCells()`. -/
def Board.deselectCells (s : BoardState) : BoardState :=
  { s with selectedCell := none, highlightedMoves := [] }

/-- `Board.highlightMoves(cell)` on the state. -/
def Board.highlightMoves (s : BoardState) (cell : Piece) : List Coord :=
  match s.selectedCell with
  | none => []
  | some sel => Board.highlightMovesAt s.board sel cell

/-- `Board.move(from, to)`: returns the legality boolean together with
the successor state.  The first matching entry of `_highlightedMoves`
triggers the mutation and the early `return true`; since every matching
entry triggers the same mutation, this is an existence test. -/
def Board.move (s : BoardState) (frm tgt : Coord) : Bool × BoardState :=
  let fromCell := convert2DIndexTo1D frm.row frm.col
  let toCell := convert2DIndexTo1D tgt.row tgt.col
  let piece := jsGet s.board fromCell
  let isCastling : Bool :=
    (match piece with
     | JSVal.piece p => p.name = IName.king
     | _ => false) && (frm.col - tgt.col).natAbs = 2
  if s.highlightedMoves.any fun m => m.row = tgt.row ∧ m.col = tgt.col then
    let b1 := jsSet s.board toCell (jsGet s.board fromCell)
    let b2 := jsSet b1 fromCell JSVal.empty
    let b3 :=
      if isCastling then
        if fromCell < toCell then
          jsSet (jsSet b2 (toCell - 1) (jsGet b2 (toCell + 1)))
            (toCell + 1) JSVal.empty
        else if fromCell > toCell then
          jsSet (jsSet b2 (toCell + 1) (jsGet b2 (toCell - 2)))
            (toCell - 2) JSVal.empty
        else b2
      else b2
    (true, Board.deselectCells { s with board := b3 })
  else (false, Board.deselectCells s)

/-- `cell.hasMovedOnce = true` on the piece object that was read from
the origin cell before the move: after a successful move that object
lives in the destination cell, so the flag flip is a rewrite of the
destination cell.  (Writing a property on `0`/`undefined` would throw in
JavaScript; both are unreachable because the caller guards with
`cell !== 0` and reads through an on-board index.) -/
def markMoved (b : List JSVal) (i : Int) : List JSVal :=
  match jsGet b i with
  | JSVal.piece p => jsSet b i (JSVal.piece { p with hasMovedOnce := true })
  | _ => b

/-- The `else if (this._board[index1D] !== 0)` arm of
`selectHighlightedCell`: select the cursor cell when it is non-empty and
recompute the highlighted moves for its piece. -/
def Board.trySelectAt (s : BoardState) (row col : Int) (index1D : Int) :
    BoardState :=
  if jsGet s.board index1D ≠ JSVal.empty then
    let s1 := { s with selectedCell := some ⟨row, col⟩ }
    match jsGet s1.board index1D with
    | JSVal.piece p =>
        { s1 with highlightedMoves := Board.highlightMoves s1 p }
    | _ => s1
  else s

/-- `Board.selectHighlightedCell()`, the confirm event. -/
def Board.selectHighlightedCell (s : BoardState) : BoardState :=
  let row := s.highlightedCell.row
  let col := s.highlightedCell.col
  let index1D := convert2DIndexTo1D row col
  match s.selectedCell with
  | some sel =>
    if sel.row = row ∧ sel.col = col then Board.deselectCells s
    else if Board.moveMode s then
      let cellVal := jsGet s.board (convert2DIndexTo1D sel.row sel.col)
      let res := Board.move s sel s.highlightedCell
      if res.1 = true ∧ cellVal ≠ JSVal.empty then
        { res.2 with board := markMoved res.2.board index1D }
      else res.2
    else Board.trySelectAt s row col index1D
  | none => Board.trySelectAt s row col index1D

/-- `moveUp()`: the cursor row decreases unless already at the edge. -/
def Board.moveUp (s : BoardState) : BoardState :=
  { s with highlightedCell :=
      ⟨s.highlightedCell.row - (if 1 < s.highlightedCell.row then 1 else 0),
       s.highlightedCell.col⟩ }

/-- `moveDown()`. -/
def Board.moveDown (s : BoardState) : BoardState :=
  { s with highlightedCell :=
      ⟨s.highlightedCell.row + (if s.highlightedCell.row < 8 then 1 else 0),
       s.highlightedCell.col⟩ }

/-- `moveLeft()`. -/
def Board.moveLeft (s : BoardState) : BoardState :=
  { s with highlightedCell :=
      ⟨s.highlightedCell.row,
       s.highlightedCell.col - (if 1 < s.highlightedCell.col then 1 else 0)⟩ }

/-- `moveRight()`. -/
def Board.moveRight (s : BoardState) : BoardState :=
  { s with highlightedCell :=
      ⟨s.highlightedCell.row,
       s.highlightedCell.col + (if s.highlightedCell.col < 8 then 1 else 0)⟩ }

/-- The back-rank order used by `arrangeBoard`. -/
def arrangement : List IName :=
  [IName.rook, IName.knight, IName.bishop, IName.queen,
   IName.king, IName.bishop, IName.knight, IName.rook]

/-- One `for (let col = 1; col <= 8; col++)` placement loop. -/
def placeRank (b : List JSVal) (row : Int) (mk : Nat → Piece) : List JSVal :=
  (List.range 8).foldl
    (fun acc c => jsSet acc (convert2DIndexTo1D row (Int.ofNat c + 1))
      (JSVal.piece (mk c))) b

/-- `arrangeBoard()` applied to the freshly filled board
(`new Array(8 * 8).fill(0)`). -/
def arrangeBoard : List JSVal :=
  let b0 := List.replicate 64 JSVal.empty
  let b1 := placeRank b0 1 fun c => mkPiece (arrangement.getD c IName.pawn) IColor.black
  let b2 := placeRank b1 2 fun _ => mkPiece IName.pawn IColor.black
  let b3 := placeRank b2 7 fun _ => mkPiece IName.pawn IColor.white
  placeRank b3 8 fun c => mkPiece (arrangement.getD c IName.pawn) IColor.white

/-- The state right after `new Board(); newBoard.arrangeBoard()`:
cursor at `(7, 5)`, no selection, no highlighted moves. -/
def initState : BoardState :=
  { board := arrangeBoard
    highlightedCell := ⟨7, 5⟩
    selectedCell := none
    highlightedMoves := [] }

/-- The input events the keypress handler feeds to the board. -/
inductive Event where
  | up : Event
  | down : Event
  | left : Event
  | right : Event
  | confirm : Event
deriving DecidableEq, Repr

/-- One step of the event loop. -/
def step (s : BoardState) : Event → BoardState
  | Event.up => Board.moveUp s
  | Event.down => Board.moveDown s
  | Event.left => Board.moveLeft s
  | Event.right => Board.moveRight s
  | Event.confirm => Board.selectHighlightedCell s

/-- States reachable from the initial arrangement by cursor-move and
confirm events. -/
def Reachable (s : BoardState) : Prop :=
  ∃ evs : List Event, s = evs.foldl step initState

/-!
## Claim theorems and supporting lemmas
-/

theorem move_clears (s : BoardState) (frm tgt : Coord) :
    (Board.move s frm tgt).2.selectedCell = none ∧
    (Board.move s frm tgt).2.highlightedMoves = [] := by
  unfold Board.move
  split <;> simp [Board.deselectCells]

/-- C5: for every board, moving color, origin and singleStep flag, each of
the eight direction lists produced by `calculatePaths` equals the spec's
ray: the leading run of empty stepped-to cells — cut to the first step
when `singleStep` — followed by the first non-empty cell iff its occupant
has the opposite color.  In particular the walk never appends a
coordinate beyond the first non-empty cell, appends that cell iff it is
an enemy, and appends-and-continues over empty cells. -/
theorem claim5_raycaster_spec (b : List JSVal) (cell : Piece) (sel : Coord)
    (ss : Bool) :
    (Board.calculatePaths b cell sel ss).top =
        raySpec b cell.color ss (stepsTop sel.row sel.col) ∧
    (Board.calculatePaths b cell sel ss).right =
        raySpec b cell.color ss (stepsRight sel.row sel.col) ∧
    (Board.calculatePaths b cell sel ss).bottom =
        raySpec b cell.color ss (stepsBottom sel.row sel.col) ∧
    (Board.calculatePaths b cell sel ss).left =
        raySpec b cell.color ss (stepsLeft sel.row sel.col) ∧
    (Board.calculatePaths b cell sel ss).topLeft =
        raySpec b cell.color ss (stepsTopLeft sel.row sel.col) ∧
    (Board.calculatePaths b cell sel ss).topRight =
        raySpec b cell.color ss (stepsTopRight sel.row sel.col) ∧
    (Board.calculatePaths b cell sel ss).bottomLeft =
        raySpec b cell.color ss (stepsBottomLeft sel.row sel.col) ∧
    (Board.calculatePaths b cell sel ss).bottomRight =
        raySpec b cell.color ss (stepsBottomRight sel.row sel.col) :=
  ⟨walkRay_eq_raySpec .., walkRay_eq_raySpec .., walkRay_eq_raySpec ..,
   walkRay_eq_raySpec .., walkRay_eq_raySpec .., walkRay_eq_raySpec ..,
   walkRay_eq_raySpec .., walkRay_eq_raySpec ..⟩

/-- C8: `Board.move` returns `true` exactly when the destination matches
an entry of the current HighlightedMoves, and on a non-matching
destination it leaves every grid cell untouched while still clearing the
selection and the HighlightedMoves. -/
theorem claim8_move_gate (s : BoardState) (frm tgt : Coord) :
    ((Board.move s frm tgt).1 = true ↔
      ∃ m ∈ s.highlightedMoves, m.row = tgt.row ∧ m.col = tgt.col) ∧
    ((∀ m ∈ s.highlightedMoves, ¬(m.row = tgt.row ∧ m.col = tgt.col)) →
      (Board.move s frm tgt).1 = false ∧
      (Board.move s frm tgt).2.board = s.board ∧
      (Board.move s frm tgt).2.selectedCell = none ∧
      (Board.move s frm tgt).2.highlightedMoves = []) := by
  by_cases h : (s.highlightedMoves.any fun m =>
      m.row = tgt.row ∧ m.col = tgt.col) = true
  · have hex : ∃ m ∈ s.highlightedMoves, m.row = tgt.row ∧ m.col = tgt.col := by
      simpa using h
    constructor
    · unfold Board.move
      rw [if_pos h]
      simpa using hex
    · intro hforall
      rcases hex with ⟨m, hm, hmm⟩
      exact absurd hmm (hforall m hm)
  · have hng : ¬∃ m ∈ s.highlightedMoves, m.row = tgt.row ∧ m.col = tgt.col := by
      intro hex
      exact h (by simpa using hex)
    constructor
    · unfold Board.move
      rw [if_neg h]
      simpa using hng
    · intro _
      unfold Board.move
      rw [if_neg h]
      simp [Board.deselectCells]

/-- C3: a confirm on a `Selected` state (a selection exists and
HighlightedMoves is populated) with the cursor on another cell always
ends `Idle`: selection cleared and HighlightedMoves empty, whether or not
the attempted move succeeded. -/
theorem claim3_commit_clears (s : BoardState) (sel : Coord)
    (hsel : s.selectedCell = some sel)
    (hmm : s.highlightedMoves ≠ [])
    (hne : ¬(sel.row = s.highlightedCell.row ∧ sel.col = s.highlightedCell.col)) :
    (Board.selectHighlightedCell s).selectedCell = none ∧
    (Board.selectHighlightedCell s).highlightedMoves = [] := by
  have hmode : Board.moveMode s = true := by
    unfold Board.moveMode
    cases hl : s.highlightedMoves with
    | nil => exact absurd hl hmm
    | cons a t => simp
  unfold Board.selectHighlightedCell
  rw [hsel]
  simp only [hne, if_false, hmode, if_true]
  split
  · exact ⟨(move_clears s sel s.highlightedCell).1,
      (move_clears s sel s.highlightedCell).2⟩
  · exact ⟨(move_clears s sel s.highlightedCell).1,
      (move_clears s sel s.highlightedCell).2⟩

theorem claim3_commit_clears_witness :
    (Board.selectHighlightedCell
      (BoardState.mk (List.replicate 64 JSVal.empty) ⟨1, 1⟩ (some ⟨2, 2⟩)
        [⟨3, 3⟩])).selectedCell = none ∧
    (Board.selectHighlightedCell
      (BoardState.mk (List.replicate 64 JSVal.empty) ⟨1, 1⟩ (some ⟨2, 2⟩)
        [⟨3, 3⟩])).highlightedMoves = [] :=
  claim3_commit_clears
    (BoardState.mk (List.replicate 64 JSVal.empty) ⟨1, 1⟩ (some ⟨2, 2⟩) [⟨3, 3⟩])
    ⟨2, 2⟩ rfl (by decide) (by decide)

theorem claim8_move_gate_witness :
    (Board.move (BoardState.mk [] ⟨1, 1⟩ none [⟨4, 4⟩]) ⟨2, 2⟩ ⟨3, 3⟩).1 = false ∧
    (Board.move (BoardState.mk [] ⟨1, 1⟩ none [⟨4, 4⟩]) ⟨2, 2⟩ ⟨3, 3⟩).2.board = [] ∧
    (Board.move (BoardState.mk [] ⟨1, 1⟩ none [⟨4, 4⟩]) ⟨2, 2⟩ ⟨3, 3⟩).2.selectedCell = none ∧
    (Board.move (BoardState.mk [] ⟨1, 1⟩ none [⟨4, 4⟩]) ⟨2, 2⟩ ⟨3, 3⟩).2.highlightedMoves = [] :=
  (claim8_move_gate (BoardState.mk [] ⟨1, 1⟩ none [⟨4, 4⟩]) ⟨2, 2⟩ ⟨3, 3⟩).2
    (by decide)

/-- The board for the C2 failing input: a white pawn at `(5,4)` that has
not moved, with a black pawn directly ahead at `(4,4)` and the
two-squares-ahead cell `(3,4)` empty. -/
def pawnJumpBoard : List JSVal :=
  jsSet
    (jsSet (List.replicate 64 JSVal.empty) (convert2DIndexTo1D 5 4)
      (JSVal.piece (mkPiece IName.pawn IColor.white)))
    (convert2DIndexTo1D 4 4) (JSVal.piece (mkPiece IName.pawn IColor.black))

/-- C2 (code bug): the pawn rule offers the two-squares-forward
destination `(3,4)` although the one-square-ahead cell `(4,4)` is
occupied — the code only tests the two-squares-ahead cell, so an unmoved
pawn jumps over a blocker, contrary to the spec'd rule (and to chess). -/
theorem claim2_pawn_two_step_bug :
    (⟨3, 4⟩ ∈ Board.highlightMovesAt pawnJumpBoard ⟨5, 4⟩
        (mkPiece IName.pawn IColor.white)) ∧
    jsGet pawnJumpBoard (convert2DIndexTo1D 4 4) ≠ JSVal.empty ∧
    (⟨4, 4⟩ ∉ Board.highlightMovesAt pawnJumpBoard ⟨5, 4⟩
        (mkPiece IName.pawn IColor.white)) := by
  decide

/-- The board for the C7 failing input: a black knight at `(1,7)` and an
empty cell at `(3,1)`. -/
def knightWrapBoard : List JSVal :=
  jsSet (List.replicate 64 JSVal.empty) (convert2DIndexTo1D 1 7)
    (JSVal.piece (mkPiece IName.knight IColor.black))

/-- C7 (code bug): there is no bounds check anywhere — the coordinate
`(2,9)`, whose column is outside `[1,8]`, is mapped by
`convert2DIndexTo1D` to flat index 16, the same index as the legitimate
cell `(3,1)`; consequently the knight move generator reads the wrapped
cell and offers the off-board coordinate `(2,9)` instead of any
`OutOfRange` rejection. -/
theorem claim7_no_bounds_check :
    convert2DIndexTo1D 2 9 = 16 ∧
    convert2DIndexTo1D 3 1 = 16 ∧
    jsGet knightWrapBoard (convert2DIndexTo1D 2 9) = JSVal.empty ∧
    (⟨2, 9⟩ ∈ Board.highlightMovesAt knightWrapBoard ⟨1, 7⟩
        (mkPiece IName.knight IColor.black)) := by
  decide

theorem jsGet_ne_undef_bounds (b : List JSVal) (i : Int)
    (h : jsGet b i ≠ JSVal.undef) : 0 ≤ i ∧ i < (b.length : Int) := by
  unfold jsGet at h
  by_cases hi : 0 ≤ i
  · rw [if_pos hi] at h
    cases hg : b.get? i.toNat with
    | none => rw [hg] at h; simp at h
    | some v =>
      have hlt : i.toNat < b.length := by
        by_contra hge
        push_neg at hge
        rw [List.get?_eq_none.mpr hge] at hg
        cases hg
      exact ⟨hi, by omega⟩
  · rw [if_neg hi] at h
    simp at h

/-- The eight fixed knight offsets, in the order the source lists them. -/
def knightOffsets (row col : Int) : List Coord :=
  [⟨row - 2, col - 1⟩, ⟨row - 2, col + 1⟩,
   ⟨row - 1, col - 2⟩, ⟨row - 1, col + 2⟩,
   ⟨row + 2, col + 1⟩, ⟨row + 2, col - 1⟩,
   ⟨row + 1, col - 2⟩, ⟨row + 1, col + 2⟩]

theorem highlightMovesAt_knight (b : List JSVal) (row col : Int) (p : Piece)
    (hp : p.name = IName.knight) :
    Board.highlightMovesAt b ⟨row, col⟩ p =
      (knightOffsets row col).filter fun pos =>
        match jsGet b (convert2DIndexTo1D pos.row pos.col) with
        | JSVal.empty => true
        | JSVal.piece q => q.color ≠ p.color
        | JSVal.undef => false := by
  rcases p with ⟨pn, pc, pf⟩
  simp only at hp
  subst hp
  rfl

/-- `q` is reachable for color `c`: the target cell reads empty, or holds
an occupant of the other color. -/
def emptyOrEnemy (b : List JSVal) (q : Coord) (c : IColor) : Prop :=
  jsGet b (convert2DIndexTo1D q.row q.col) = JSVal.empty ∨
  ∃ pc, jsGet b (convert2DIndexTo1D q.row q.col) = JSVal.piece pc ∧ pc.color ≠ c

/-- An otherwise empty board holding one white knight. -/
def soleKnightBoard (row col : Int) : List JSVal :=
  jsSet (List.replicate 64 JSVal.empty) (convert2DIndexTo1D row col)
    (JSVal.piece (mkPiece IName.knight IColor.white))

/-- The board for the C4 counterexample: a white knight alone at `(1,7)`. -/
def knightEdgeBoard : List JSVal :=
  jsSet (List.replicate 64 JSVal.empty) (convert2DIndexTo1D 1 7)
    (JSVal.piece (mkPiece IName.knight IColor.white))

/-- C4 counterexample: for the knight at `(1,7)` on an otherwise empty
board the code offers `(0,9)` — an off-board coordinate, because its flat
index wraps to the empty cell `(1,1)` — and the total count is 5, which
is neither the legal count 3 for that square nor in `{2,3,4,6,8}`. -/
theorem claim4_counterexample :
    (⟨0, 9⟩ ∈ Board.highlightMovesAt knightEdgeBoard ⟨1, 7⟩
        (mkPiece IName.knight IColor.white)) ∧
    (Board.highlightMovesAt knightEdgeBoard ⟨1, 7⟩
        (mkPiece IName.knight IColor.white)).length = 5 := by
  decide

/-- C4 (amended): a selected knight's destinations are exactly the 8
fixed offsets whose flat index `(row-1)*8+(col-1)` lands inside the
store and whose cell there is empty or enemy-occupied.  When the
knight's column is in `[3,6]` no column overflow can wrap, and the rule
coincides with the claimed one — target on the board, in `[1,8]×[1,8]`,
empty or enemy — and the empty-board counts are in `{2,3,4,6,8}`; near
the left/right edges the flat index of an off-board offset can wrap into
an adjacent row and off-board coordinates are then offered. -/
theorem claim4_knight_moves :
    (∀ (b : List JSVal) (p : Piece) (row col : Int), p.name = IName.knight →
      ∀ q, q ∈ Board.highlightMovesAt b ⟨row, col⟩ p ↔
        (q ∈ knightOffsets row col ∧
         0 ≤ convert2DIndexTo1D q.row q.col ∧
         convert2DIndexTo1D q.row q.col < (b.length : Int) ∧
         emptyOrEnemy b q p.color)) ∧
    (∀ (b : List JSVal) (p : Piece) (row col : Int), b.length = 64 →
      p.name = IName.knight → 3 ≤ col → col ≤ 6 →
      ∀ q, q ∈ Board.highlightMovesAt b ⟨row, col⟩ p ↔
        (q ∈ knightOffsets row col ∧ 1 ≤ q.row ∧ q.row ≤ 8 ∧
         1 ≤ q.col ∧ q.col ≤ 8 ∧ emptyOrEnemy b q p.color)) ∧
    (∀ row col : Int, 1 ≤ row → row ≤ 8 → 3 ≤ col → col ≤ 6 →
      (Board.highlightMovesAt (soleKnightBoard row col) ⟨row, col⟩
        (mkPiece IName.knight IColor.white)).length ∈ ([2, 3, 4, 6, 8] : List Nat)) := by
  have part1 : ∀ (b : List JSVal) (p : Piece) (row col : Int),
      p.name = IName.knight →
      ∀ q, q ∈ Board.highlightMovesAt b ⟨row, col⟩ p ↔
        (q ∈ knightOffsets row col ∧
         0 ≤ convert2DIndexTo1D q.row q.col ∧
         convert2DIndexTo1D q.row q.col < (b.length : Int) ∧
         emptyOrEnemy b q p.color) := by
    intro b p row col hp q
    rw [highlightMovesAt_knight b row col p hp, List.mem_filter]
    constructor
    · rintro ⟨hmem, hpred⟩
      refine ⟨hmem, ?_⟩
      rcases hg : jsGet b (convert2DIndexTo1D q.row q.col) with _ | _ | pc
      · rw [hg] at hpred; simp at hpred
      · have hb := jsGet_ne_undef_bounds b _ (by rw [hg]; simp)
        exact ⟨hb.1, hb.2, Or.inl hg⟩
      · have hb := jsGet_ne_undef_bounds b _ (by rw [hg]; simp)
        rw [hg] at hpred
        simp only [decide_eq_true_eq] at hpred
        exact ⟨hb.1, hb.2, Or.inr ⟨pc, hg, hpred⟩⟩
    · rintro ⟨hmem, _, _, hee⟩
      refine ⟨hmem, ?_⟩
      rcases hee with hg | ⟨pc, hg, hc⟩
      · rw [hg]
      · rw [hg]
        simpa using hc
  refine ⟨part1, ?_, ?_⟩
  · intro b p row col hlen hp hc3 hc6 q
    rw [part1 b p row col hp q]
    have hiff : q ∈ knightOffsets row col →
        ((0 ≤ convert2DIndexTo1D q.row q.col ∧
          convert2DIndexTo1D q.row q.col < (b.length : Int)) ↔
         (1 ≤ q.row ∧ q.row ≤ 8 ∧ 1 ≤ q.col ∧ q.col ≤ 8)) := by
      intro hmem
      have hq : (1 ≤ q.col ∧ q.col ≤ 8) := by
        simp only [knightOffsets, List.mem_cons, List.not_mem_nil, or_false] at hmem
        rcases hmem with h | h | h | h | h | h | h | h <;> rw [h] <;>
          exact ⟨by simp; omega, by simp; omega⟩
      rw [hlen]
      unfold convert2DIndexTo1D
      constructor
      · intro hb; omega
      · intro hb; omega
    constructor
    · rintro ⟨hmem, hb1, hb2, hee⟩
      have := (hiff hmem).mp ⟨hb1, hb2⟩
      exact ⟨hmem, this.1, this.2.1, this.2.2.1, this.2.2.2, hee⟩
    · rintro ⟨hmem, h1, h2, h3, h4, hee⟩
      have := (hiff hmem).mpr ⟨h1, h2, h3, h4⟩
      exact ⟨hmem, this.1, this.2, hee⟩
  · intro row col h1 h2 h3 h4
    interval_cases row <;> interval_cases col <;> decide

theorem claim4_knight_moves_witness :
    (Board.highlightMovesAt (soleKnightBoard 4 4) ⟨4, 4⟩
      (mkPiece IName.knight IColor.white)).length ∈ ([2, 3, 4, 6, 8] : List Nat) :=
  claim4_knight_moves.2.2 4 4 (by decide) (by decide) (by decide) (by decide)

theorem mem_walkRay_single {b : List JSVal} {c : IColor} {steps : List Coord}
    {q : Coord} (h : q ∈ walkRay b c true steps) : steps.head? = some q := by
  cases steps with
  | nil => cases h
  | cons a t =>
    unfold walkRay at h
    rcases hg : jsGet b (convert2DIndexTo1D a.row a.col) with _ | _ | p <;>
      rw [hg] at h
    · cases h
    · simp at h
      simp [h]
    · by_cases hc : p.color = c
      · simp [hc] at h
      · simp [hc] at h
        simp [h]

theorem adj_of_single (b : List JSVal) (c : IColor) (steps : List Coord)
    (hd : Coord) (hshape : steps = [] ∨ ∃ t, steps = hd :: t) {q : Coord}
    (h : q ∈ walkRay b c true steps) : q = hd := by
  rcases hshape with h0 | ⟨t, ht⟩
  · subst h0; cases h
  · subst ht
    have := mem_walkRay_single h
    simp at this
    exact this.symm

theorem stepsTop_shape (row col : Int) :
    stepsTop row col = [] ∨ ∃ t, stepsTop row col = ⟨row - 1, col⟩ :: t := by
  by_cases h : 1 ≤ row - 1
  · right
    unfold stepsTop
    rw [show (7 : Nat) = 6 + 1 from rfl, List.range_succ_eq_map, List.filterMap_cons]
    norm_num [h]
  · left
    unfold stepsTop
    refine List.filterMap_eq_nil_iff.mpr ?_
    intro k _
    simp only
    rw [if_neg (by omega)]

theorem stepsBottom_shape (row col : Int) :
    stepsBottom row col = [] ∨ ∃ t, stepsBottom row col = ⟨row + 1, col⟩ :: t := by
  by_cases h : row + 1 ≤ 8
  · right
    unfold stepsBottom
    rw [show (7 : Nat) = 6 + 1 from rfl, List.range_succ_eq_map, List.filterMap_cons]
    norm_num [h]
  · left
    unfold stepsBottom
    refine List.filterMap_eq_nil_iff.mpr ?_
    intro k _
    simp only
    rw [if_neg (by omega)]

theorem stepsLeft_shape (row col : Int) :
    stepsLeft row col = [] ∨ ∃ t, stepsLeft row col = ⟨row, col - 1⟩ :: t := by
  by_cases h : 1 ≤ col - 1
  · right
    unfold stepsLeft
    rw [show (7 : Nat) = 6 + 1 from rfl, List.range_succ_eq_map, List.filterMap_cons]
    norm_num [h]
  · left
    unfold stepsLeft
    refine List.filterMap_eq_nil_iff.mpr ?_
    intro k _
    simp only
    rw [if_neg (by omega)]

theorem stepsRight_shape (row col : Int) :
    stepsRight row col = [] ∨ ∃ t, stepsRight row col = ⟨row, col + 1⟩ :: t := by
  by_cases h : col + 1 ≤ 8
  · right
    unfold stepsRight
    rw [show (7 : Nat) = 6 + 1 from rfl, List.range_succ_eq_map, List.filterMap_cons]
    norm_num [h]
  · left
    unfold stepsRight
    refine List.filterMap_eq_nil_iff.mpr ?_
    intro k _
    simp only
    rw [if_neg (by omega)]

theorem stepsTopLeft_shape (row col : Int) :
    stepsTopLeft row col = [] ∨
      ∃ t, stepsTopLeft row col = ⟨row - 1, col - 1⟩ :: t := by
  by_cases h : 1 ≤ row - 1 ∧ 1 ≤ col - 1
  · right
    unfold stepsTopLeft
    rw [show (7 : Nat) = 6 + 1 from rfl, List.range_succ_eq_map, List.filterMap_cons]
    norm_num [h.1, h.2]
  · left
    unfold stepsTopLeft
    refine List.filterMap_eq_nil_iff.mpr ?_
    intro k _
    simp only
    rw [if_neg (by omega)]

theorem stepsTopRight_shape (row col : Int) :
    stepsTopRight row col = [] ∨
      ∃ t, stepsTopRight row col = ⟨row - 1, col + 1⟩ :: t := by
  by_cases h : 1 ≤ row - 1 ∧ col + 1 ≤ 8
  · right
    unfold stepsTopRight
    rw [show (7 : Nat) = 6 + 1 from rfl, List.range_succ_eq_map, List.filterMap_cons]
    norm_num [h.1, h.2]
  · left
    unfold stepsTopRight
    refine List.filterMap_eq_nil_iff.mpr ?_
    intro k _
    simp only
    rw [if_neg (by omega)]

theorem stepsBottomLeft_shape (row col : Int) :
    stepsBottomLeft row col = [] ∨
      ∃ t, stepsBottomLeft row col = ⟨row + 1, col - 1⟩ :: t := by
  by_cases h : row + 1 ≤ 8 ∧ 1 ≤ col - 1
  · right
    unfold stepsBottomLeft
    rw [show (7 : Nat) = 6 + 1 from rfl, List.range_succ_eq_map, List.filterMap_cons]
    norm_num [h.1, h.2]
  · left
    unfold stepsBottomLeft
    refine List.filterMap_eq_nil_iff.mpr ?_
    intro k _
    simp only
    rw [if_neg (by omega)]

theorem stepsBottomRight_shape (row col : Int) :
    stepsBottomRight row col = [] ∨
      ∃ t, stepsBottomRight row col = ⟨row + 1, col + 1⟩ :: t := by
  by_cases h : row + 1 ≤ 8 ∧ col + 1 ≤ 8
  · right
    unfold stepsBottomRight
    rw [show (7 : Nat) = 6 + 1 from rfl, List.range_succ_eq_map, List.filterMap_cons]
    norm_num [h.1, h.2]
  · left
    unfold stepsBottomRight
    refine List.filterMap_eq_nil_iff.mpr ?_
    intro k _
    simp only
    rw [if_neg (by omega)]

/-- Every member of the king's eight single-step rays is one of the eight
neighbouring cells of the origin. -/
theorem kingRays_adjacent (b : List JSVal) (c : IColor) (row col : Int)
    (q : Coord)
    (h : q ∈ walkRay b c true (stepsTop row col) ++
          walkRay b c true (stepsRight row col) ++
          walkRay b c true (stepsBottom row col) ++
          walkRay b c true (stepsLeft row col) ++
          walkRay b c true (stepsTopLeft row col) ++
          walkRay b c true (stepsTopRight row col) ++
          walkRay b c true (stepsBottomLeft row col) ++
          walkRay b c true (stepsBottomRight row col)) :
    (q.row - row).natAbs ≤ 1 ∧ (q.col - col).natAbs ≤ 1 := by
  simp only [List.mem_append] at h
  rcases h with ((((((h | h) | h) | h) | h) | h) | h) | h
  · rw [adj_of_single b c _ _ (stepsTop_shape row col) h]
    constructor <;> simp
  · rw [adj_of_single b c _ _ (stepsRight_shape row col) h]
    constructor <;> simp
  · rw [adj_of_single b c _ _ (stepsBottom_shape row col) h]
    constructor <;> simp
  · rw [adj_of_single b c _ _ (stepsLeft_shape row col) h]
    constructor <;> simp
  · rw [adj_of_single b c _ _ (stepsTopLeft_shape row col) h]
    constructor <;> simp
  · rw [adj_of_single b c _ _ (stepsTopRight_shape row col) h]
    constructor <;> simp
  · rw [adj_of_single b c _ _ (stepsBottomLeft_shape row col) h]
    constructor <;> simp
  · rw [adj_of_single b c _ _ (stepsBottomRight_shape row col) h]
    constructor <;> simp

/-- The final value of a castling scan loop holds an unmoved rook exactly
when the scanned cells split into a run of empty cells followed by a
first non-empty cell holding an unmoved rook: the "skip the first run of
empty cells, then test the first occupant" reading, which also says every
cell between the origin and the found rook is empty. -/
theorem scanList_rook_iff (b : List JSVal) (l : List Coord) :
    isUnmovedRook (scanList b l) = true ↔
      ∃ l1 q l2, l = l1 ++ q :: l2 ∧ (∀ r ∈ l1, cellIsEmpty b r = true) ∧
        cellIsEmpty b q = false ∧
        isUnmovedRook (jsGet b (convert2DIndexTo1D q.row q.col)) = true := by
  induction l with
  | nil =>
    constructor
    · intro h
      simp [scanList, isUnmovedRook] at h
    · rintro ⟨l1, q, l2, habs, -, -, -⟩
      cases l1 <;> simp at habs
  | cons a t ih =>
    by_cases ha : cellIsEmpty b a = true
    · rw [show scanList b (a :: t) = scanList b t by simp [scanList, ha]]
      rw [ih]
      constructor
      · rintro ⟨l1, q, l2, heq, hemp, hq, hrook⟩
        refine ⟨a :: l1, q, l2, by rw [heq]; rfl, ?_, hq, hrook⟩
        intro r hr
        rcases List.mem_cons.mp hr with h | h
        · rw [h]; exact ha
        · exact hemp r h
      · rintro ⟨l1, q, l2, heq, hemp, hq, hrook⟩
        cases l1 with
        | nil =>
          simp at heq
          rw [heq.1] at ha
          rw [hq] at ha
          exact absurd ha (by simp)
        | cons a' l1' =>
          simp at heq
          refine ⟨l1', q, l2, heq.2, ?_, hq, hrook⟩
          intro r hr
          exact hemp r (List.mem_cons_of_mem a' hr)
    · rw [show scanList b (a :: t) =
          jsGet b (convert2DIndexTo1D a.row a.col) by simp [scanList, ha]]
      constructor
      · intro h
        exact ⟨[], a, t, rfl, by simp, by simpa using ha, h⟩
      · rintro ⟨l1, q, l2, heq, hemp, hq, hrook⟩
        cases l1 with
        | nil =>
          simp at heq
          rw [heq.1]
          exact hrook
        | cons a' l1' =>
          simp at heq
          have haq : cellIsEmpty b a = true := by
            rw [heq.1]
            exact hemp a' (by simp)
          exact absurd haq ha

/-- Inversion for the king's HighlightedMoves: an offered destination two
columns away horizontally can only come from the castling pushes, so the
king is unmoved, the destination is on the king's row, and the
corresponding scan (the stale right-scan value when the king stands on
column 1) found an unmoved rook. -/
theorem king_castle_inv (b : List JSVal) (p : Piece) (row col : Int)
    (hp : p.name = IName.king) (q : Coord)
    (hq : q ∈ Board.highlightMovesAt b ⟨row, col⟩ p)
    (hd : (q.col - col).natAbs = 2) :
    p.hasMovedOnce = false ∧ q.row = row ∧
    ((q.col = col + 2 ∧ isUnmovedRook (scanRight b row col) = true) ∨
     (q.col = col - 2 ∧ isUnmovedRook
        (if 1 ≤ col - 1 then scanLeft b row col
         else scanRight b row col) = true)) := by
  rcases p with ⟨pn, pc, pf⟩
  simp only at hp
  subst hp
  unfold Board.highlightMovesAt at hq
  simp only at hq
  cases pf with
  | true =>
    rw [if_pos rfl] at hq
    have := kingRays_adjacent b pc row col q (by
      simpa [Board.calculatePaths] using hq)
    omega
  | false =>
    rw [if_neg (by simp)] at hq
    rw [List.append_assoc, List.mem_append] at hq
    rcases hq with hq | hq
    · have := kingRays_adjacent b pc row col q (by
        simpa [Board.calculatePaths] using hq)
      omega
    · rw [List.mem_append] at hq
      refine ⟨rfl, ?_⟩
      rcases hq with hq | hq
      · by_cases hcond : isUnmovedRook (scanRight b row col) = true
        · rw [if_pos hcond] at hq
          simp at hq
          subst hq
          exact ⟨rfl, Or.inl ⟨rfl, hcond⟩⟩
        · rw [if_neg hcond] at hq
          cases hq
      · by_cases hcond : isUnmovedRook
            (if 1 ≤ col - 1 then scanLeft b row col
             else scanRight b row col) = true
        · rw [if_pos hcond] at hq
          simp at hq
          subst hq
          exact ⟨rfl, Or.inr ⟨rfl, hcond⟩⟩
        · rw [if_neg hcond] at hq
          cases hq

theorem king_push_right_mem (b : List JSVal) (p : Piece) (row col : Int)
    (hp : p.name = IName.king) (hflag : p.hasMovedOnce = false)
    (hcond : isUnmovedRook (scanRight b row col) = true) :
    (⟨row, col + 2⟩ : Coord) ∈ Board.highlightMovesAt b ⟨row, col⟩ p := by
  rcases p with ⟨pn, pc, pf⟩
  simp only at hp hflag
  subst hp
  subst hflag
  unfold Board.highlightMovesAt
  simp only
  rw [if_neg (by simp)]
  rw [List.append_assoc, List.mem_append]
  right
  rw [if_pos hcond]
  simp

theorem king_push_left_mem (b : List JSVal) (p : Piece) (row col : Int)
    (hp : p.name = IName.king) (hflag : p.hasMovedOnce = false)
    (hcond : isUnmovedRook
      (if 1 ≤ col - 1 then scanLeft b row col
       else scanRight b row col) = true) :
    (⟨row, col - 2⟩ : Coord) ∈ Board.highlightMovesAt b ⟨row, col⟩ p := by
  rcases p with ⟨pn, pc, pf⟩
  simp only at hp hflag
  subst hp
  subst hflag
  unfold Board.highlightMovesAt
  simp only
  rw [if_neg (by simp)]
  rw [List.append_assoc, List.mem_append]
  right
  rw [List.mem_append]
  right
  rw [if_pos hcond]
  simp

/-- The board for the C6 counterexample: a white king at `(1,1)` and a
white rook at `(1,2)`, both unmoved, rest empty.  There is no cell to
the king's left at all. -/
def staleKingBoard : List JSVal :=
  jsSet
    (jsSet (List.replicate 64 JSVal.empty) (convert2DIndexTo1D 1 1)
      (JSVal.piece (mkPiece IName.king IColor.white)))
    (convert2DIndexTo1D 1 2) (JSVal.piece (mkPiece IName.rook IColor.white))

/-- C6 counterexample: with the king on column 1 the leftward scan has
nothing to scan (`stepsLeft 1 1 = []`), yet the two-columns-left
castling destination `(1,-1)` is offered, because the loop variable
holding the right scan's rook is reused unchanged by the left check. -/
theorem claim6_counterexample :
    stepsLeft 1 1 = [] ∧
    ((⟨1, -1⟩ : Coord) ∈ Board.highlightMovesAt staleKingBoard ⟨1, 1⟩
        (mkPiece IName.king IColor.white)) := by
  decide

/-- C6 (amended): for a selected king, the castling destination
`(row, col+2)` is offered iff the king is unmoved and the rightward scan
stops at an unmoved rook; for a king on column ≥ 2 the destination
`(row, col-2)` is offered iff the king is unmoved and the leftward scan
stops at an unmoved rook; but for a king on column 1 the left check
reuses the right scan's stale result and offers the off-board
destination `(row, -1)` iff the right scan found an unmoved rook.  A
scan stopping at an unmoved rook is equivalent to the scanned cells
splitting into a run of empties followed by an unmoved rook — every cell
between king and rook empty, as the claim words it. -/
theorem claim6_castling (b : List JSVal) (p : Piece) (row col : Int)
    (hp : p.name = IName.king) :
    ((⟨row, col + 2⟩ : Coord) ∈ Board.highlightMovesAt b ⟨row, col⟩ p ↔
      (p.hasMovedOnce = false ∧ isUnmovedRook (scanRight b row col) = true)) ∧
    (2 ≤ col →
      ((⟨row, col - 2⟩ : Coord) ∈ Board.highlightMovesAt b ⟨row, col⟩ p ↔
        (p.hasMovedOnce = false ∧ isUnmovedRook (scanLeft b row col) = true))) ∧
    (col = 1 →
      ((⟨row, col - 2⟩ : Coord) ∈ Board.highlightMovesAt b ⟨row, col⟩ p ↔
        (p.hasMovedOnce = false ∧ isUnmovedRook (scanRight b row col) = true))) ∧
    (isUnmovedRook (scanRight b row col) = true ↔
      ∃ l1 q l2, stepsRight row col = l1 ++ q :: l2 ∧
        (∀ r ∈ l1, cellIsEmpty b r = true) ∧ cellIsEmpty b q = false ∧
        isUnmovedRook (jsGet b (convert2DIndexTo1D q.row q.col)) = true) ∧
    (isUnmovedRook (scanLeft b row col) = true ↔
      ∃ l1 q l2, stepsLeft row col = l1 ++ q :: l2 ∧
        (∀ r ∈ l1, cellIsEmpty b r = true) ∧ cellIsEmpty b q = false ∧
        isUnmovedRook (jsGet b (convert2DIndexTo1D q.row q.col)) = true) := by
  refine ⟨?_, ?_, ?_, scanList_rook_iff b _, scanList_rook_iff b _⟩
  · constructor
    · intro hmem
      obtain ⟨hflag, -, hdisj⟩ := king_castle_inv b p row col hp _ hmem
        (by show (col + 2 - col).natAbs = 2; omega)
      rcases hdisj with ⟨-, hcond⟩ | ⟨habs, -⟩
      · exact ⟨hflag, hcond⟩
      · have h2 : col + 2 = col - 2 := habs
        omega
    · rintro ⟨hflag, hcond⟩
      exact king_push_right_mem b p row col hp hflag hcond
  · intro hc2
    constructor
    · intro hmem
      obtain ⟨hflag, -, hdisj⟩ := king_castle_inv b p row col hp _ hmem
        (by show (col - 2 - col).natAbs = 2; omega)
      rcases hdisj with ⟨habs, -⟩ | ⟨-, hcond⟩
      · have h2 : col - 2 = col + 2 := habs
        omega
      · rw [if_pos (by omega)] at hcond
        exact ⟨hflag, hcond⟩
    · rintro ⟨hflag, hcond⟩
      apply king_push_left_mem b p row col hp hflag
      rw [if_pos (by omega)]
      exact hcond
  · intro hc1
    constructor
    · intro hmem
      obtain ⟨hflag, -, hdisj⟩ := king_castle_inv b p row col hp _ hmem
        (by show (col - 2 - col).natAbs = 2; omega)
      rcases hdisj with ⟨habs, -⟩ | ⟨-, hcond⟩
      · have h2 : col - 2 = col + 2 := habs
        omega
      · rw [if_neg (by omega)] at hcond
        exact ⟨hflag, hcond⟩
    · rintro ⟨hflag, hcond⟩
      apply king_push_left_mem b p row col hp hflag
      rw [if_neg (by omega)]
      exact hcond

/-- The standard-position castling board used as the C6 witness. -/
def claim6Board : List JSVal :=
  jsSet
    (jsSet (List.replicate 64 JSVal.empty) (convert2DIndexTo1D 8 5)
      (JSVal.piece (mkPiece IName.king IColor.white)))
    (convert2DIndexTo1D 8 8) (JSVal.piece (mkPiece IName.rook IColor.white))

theorem claim6_castling_witness :
    (⟨8, 7⟩ : Coord) ∈ Board.highlightMovesAt claim6Board ⟨8, 5⟩
        (mkPiece IName.king IColor.white) ↔
      ((mkPiece IName.king IColor.white).hasMovedOnce = false ∧
       isUnmovedRook (scanRight claim6Board 8 5) = true) :=
  (claim6_castling claim6Board (mkPiece IName.king IColor.white) 8 5 rfl).1

/-- The board produced by the matching branch of `Board.move` when
`isCastling` holds: king content copied from flat index `F` to `T`, `F`
emptied, then the companion relocation — for a rightward move the
content of `T+1` is copied to `T-1` and `T+1` emptied, for a leftward
move the content of `T-2` is copied to `T+1` and `T-2` emptied. -/
def castleBoards (b : List JSVal) (F T : Int) : List JSVal :=
  let b2 := jsSet (jsSet b T (jsGet b F)) F JSVal.empty
  if F < T then jsSet (jsSet b2 (T - 1) (jsGet b2 (T + 1))) (T + 1) JSVal.empty
  else if F > T then jsSet (jsSet b2 (T + 1) (jsGet b2 (T - 2))) (T - 2) JSVal.empty
  else b2

theorem move_castle_true (s : BoardState) (frm tgt : Coord) (p : Piece)
    (hpc : jsGet s.board (convert2DIndexTo1D frm.row frm.col) = JSVal.piece p)
    (hking : p.name = IName.king)
    (hdist : (frm.col - tgt.col).natAbs = 2)
    (hmem : tgt ∈ s.highlightedMoves) :
    Board.move s frm tgt =
      (true, Board.deselectCells { s with board :=
        (castleBoards s.board (convert2DIndexTo1D frm.row frm.col)
          (convert2DIndexTo1D tgt.row tgt.col)) }) := by
  have hany : (s.highlightedMoves.any fun m =>
      m.row = tgt.row ∧ m.col = tgt.col) = true :=
    List.any_eq_true.mpr ⟨tgt, hmem, by simp⟩
  unfold Board.move castleBoards
  simp only [hpc, hking, hdist, decide_True, Bool.and_self, if_pos hany]
  simp

/-- The C1 counterexample boards: a standard kingside-castle position
(white king `(8,5)`, white rook `(8,8)`, both unmoved) and a shifted one
with the king on column 4 (rook still at `(8,8)`, columns 5..7 empty). -/
def claim1BoardA : List JSVal :=
  jsSet
    (jsSet (List.replicate 64 JSVal.empty) (convert2DIndexTo1D 8 5)
      (JSVal.piece (mkPiece IName.king IColor.white)))
    (convert2DIndexTo1D 8 8) (JSVal.piece (mkPiece IName.rook IColor.white))

def claim1StateA : BoardState :=
  BoardState.mk claim1BoardA ⟨8, 7⟩ (some ⟨8, 5⟩)
    (Board.highlightMovesAt claim1BoardA ⟨8, 5⟩ (mkPiece IName.king IColor.white))

def claim1BoardB : List JSVal :=
  jsSet
    (jsSet (List.replicate 64 JSVal.empty) (convert2DIndexTo1D 8 4)
      (JSVal.piece (mkPiece IName.king IColor.white)))
    (convert2DIndexTo1D 8 8) (JSVal.piece (mkPiece IName.rook IColor.white))

def claim1StateB : BoardState :=
  BoardState.mk claim1BoardB ⟨8, 6⟩ (some ⟨8, 4⟩)
    (Board.highlightMovesAt claim1BoardB ⟨8, 4⟩ (mkPiece IName.king IColor.white))

/-- C1 counterexample.  State A: after a standard kingside castle the
rook relocated to `(8,6)` still has `hasMovedOnce = false`, so not every
relocated occupant ends with the flag set.  State B: with the king on
column 4 the castle to `(8,6)` is offered (scan finds the unmoved rook
at `(8,8)`), but the commit relocates the fixed offset cells instead of
the scanned rook: the rook stays at `(8,8)` and the cell `(8,5)`
adjacent to the king's destination on the originating side stays
empty. -/
theorem claim1_counterexample :
    ((⟨8, 7⟩ : Coord) ∈ claim1StateA.highlightedMoves) ∧
    jsGet (Board.selectHighlightedCell claim1StateA).board
        (convert2DIndexTo1D 8 6) =
      JSVal.piece { name := IName.rook, color := IColor.white,
                    hasMovedOnce := false } ∧
    ((⟨8, 6⟩ : Coord) ∈ claim1StateB.highlightedMoves) ∧
    jsGet (Board.selectHighlightedCell claim1StateB).board
        (convert2DIndexTo1D 8 8) =
      JSVal.piece { name := IName.rook, color := IColor.white,
                    hasMovedOnce := false } ∧
    jsGet (Board.selectHighlightedCell claim1StateB).board
        (convert2DIndexTo1D 8 5) = JSVal.empty := by
  decide

/-- C1 (amended): when the selected occupant at `frm` is a king, the
cursor `tgt` (on the board, away from the degenerate corners) appears in
the HighlightedMoves computed for it and lies two columns away, the
commit moves the king to `tgt` with `hasMovedOnce` set, empties `frm`,
and performs the fixed-offset companion relocation: the content of the
cell one column past `tgt` in the travel direction (rightward move),
resp. two columns before `tgt` (leftward move), is copied — flag
untouched — to the cell adjacent to the king's destination on the
originating side, and that source cell is emptied; no other cell
changes.  In the standard position (king on column 5, rook on the edge
file, cells between them empty) the copied content is the scanned rook,
which therefore keeps `hasMovedOnce = false`. -/
theorem claim1_castle_commit (s : BoardState) (frm tgt : Coord) (p : Piece)
    (hb : s.board.length = 64)
    (hsel : s.selectedCell = some frm)
    (hcur : s.highlightedCell = tgt)
    (hfr1 : 1 ≤ frm.row) (hfr2 : frm.row ≤ 8)
    (hfc1 : 1 ≤ frm.col) (hfc2 : frm.col ≤ 8)
    (htr1 : 1 ≤ tgt.row) (htr2 : tgt.row ≤ 8)
    (htc1 : 1 ≤ tgt.col) (htc2 : tgt.col ≤ 8)
    (hpc : jsGet s.board (convert2DIndexTo1D frm.row frm.col) = JSVal.piece p)
    (hking : p.name = IName.king)
    (hmv : s.highlightedMoves = Board.highlightMovesAt s.board frm p)
    (hmem : tgt ∈ s.highlightedMoves)
    (hdist : (frm.col - tgt.col).natAbs = 2)
    (hcornerR : ¬(tgt.row = 8 ∧ tgt.col = 8))
    (hcornerL : ¬(tgt.row = 1 ∧ tgt.col ≤ 2)) :
    (Board.selectHighlightedCell s).selectedCell = none ∧
    (Board.selectHighlightedCell s).highlightedMoves = [] ∧
    jsGet (Board.selectHighlightedCell s).board
        (convert2DIndexTo1D tgt.row tgt.col) =
      JSVal.piece { p with hasMovedOnce := true } ∧
    jsGet (Board.selectHighlightedCell s).board
        (convert2DIndexTo1D frm.row frm.col) = JSVal.empty ∧
    (tgt.col = frm.col + 2 →
      jsGet (Board.selectHighlightedCell s).board
          (convert2DIndexTo1D tgt.row tgt.col - 1) =
        jsGet s.board (convert2DIndexTo1D tgt.row tgt.col + 1) ∧
      jsGet (Board.selectHighlightedCell s).board
          (convert2DIndexTo1D tgt.row tgt.col + 1) = JSVal.empty) ∧
    (tgt.col = frm.col - 2 →
      jsGet (Board.selectHighlightedCell s).board
          (convert2DIndexTo1D tgt.row tgt.col + 1) =
        jsGet s.board (convert2DIndexTo1D tgt.row tgt.col - 2) ∧
      jsGet (Board.selectHighlightedCell s).board
          (convert2DIndexTo1D tgt.row tgt.col - 2) = JSVal.empty) ∧
    (∀ j : Int, j ≠ convert2DIndexTo1D tgt.row tgt.col →
      j ≠ convert2DIndexTo1D frm.row frm.col →
      j ≠ convert2DIndexTo1D tgt.row tgt.col - 1 →
      j ≠ convert2DIndexTo1D tgt.row tgt.col + 1 →
      j ≠ convert2DIndexTo1D tgt.row tgt.col - 2 →
      jsGet (Board.selectHighlightedCell s).board j = jsGet s.board j) := by
  have hFb := convert_range hfr1 hfr2 hfc1 hfc2
  have hTb := convert_range htr1 htr2 htc1 htc2
  have hFdef : convert2DIndexTo1D frm.row frm.col =
      (frm.row - 1) * 8 + frm.col - 1 := rfl
  have hTdef : convert2DIndexTo1D tgt.row tgt.col =
      (tgt.row - 1) * 8 + tgt.col - 1 := rfl
  have hmem' : tgt ∈ Board.highlightMovesAt s.board ⟨frm.row, frm.col⟩ p := by
    rw [hmv] at hmem
    exact hmem
  obtain ⟨hflag, hrow, hdisj⟩ :=
    king_castle_inv s.board p frm.row frm.col hking tgt hmem' (by omega)
  have hne : ¬(frm.row = s.highlightedCell.row ∧
      frm.col = s.highlightedCell.col) := by
    rw [hcur]
    rintro ⟨-, h2⟩
    omega
  have hmode : Board.moveMode s = true := by
    unfold Board.moveMode
    rcases hl : s.highlightedMoves with _ | ⟨a, t⟩
    · rw [hl] at hmem; cases hmem
    · simp
  have hmove := move_castle_true s frm tgt p hpc hking hdist hmem
  have hcell : jsGet s.board (convert2DIndexTo1D frm.row frm.col) ≠
      JSVal.empty := by
    rw [hpc]; simp
  have hpost : Board.selectHighlightedCell s =
      { board := markMoved
          (castleBoards s.board (convert2DIndexTo1D frm.row frm.col)
            (convert2DIndexTo1D tgt.row tgt.col))
          (convert2DIndexTo1D tgt.row tgt.col),
        highlightedCell := s.highlightedCell,
        selectedCell := none,
        highlightedMoves := [] } := by
    unfold Board.selectHighlightedCell
    rw [hsel]
    simp only
    rw [if_neg hne, if_pos hmode, hcur, hmove]
    rw [if_pos ⟨rfl, hcell⟩]
    simp [Board.deselectCells, hcur]
  have hbpost : (Board.selectHighlightedCell s).board =
      markMoved
        (castleBoards s.board (convert2DIndexTo1D frm.row frm.col)
          (convert2DIndexTo1D tgt.row tgt.col))
        (convert2DIndexTo1D tgt.row tgt.col) := by rw [hpost]
  rw [hbpost]
  refine ⟨by rw [hpost], by rw [hpost], ?_⟩
  rcases hdisj with ⟨hcR, -⟩ | ⟨hcL, -⟩
  · -- rightward castle: T = F + 2
    have hTF : convert2DIndexTo1D tgt.row tgt.col =
        convert2DIndexTo1D frm.row frm.col + 2 := by
      rw [hTdef, hFdef, hrow]
      omega
    have hT63 : convert2DIndexTo1D tgt.row tgt.col + 1 < 64 := by
      rw [hTdef]
      rcases (show ¬(tgt.row = 8 ∧ tgt.col = 8) from hcornerR) with h
      omega
    have hcb : castleBoards s.board (convert2DIndexTo1D frm.row frm.col)
        (convert2DIndexTo1D tgt.row tgt.col) =
        jsSet (jsSet
          (jsSet (jsSet s.board (convert2DIndexTo1D tgt.row tgt.col)
            (jsGet s.board (convert2DIndexTo1D frm.row frm.col)))
            (convert2DIndexTo1D frm.row frm.col) JSVal.empty)
          (convert2DIndexTo1D tgt.row tgt.col - 1)
          (jsGet (jsSet (jsSet s.board (convert2DIndexTo1D tgt.row tgt.col)
            (jsGet s.board (convert2DIndexTo1D frm.row frm.col)))
            (convert2DIndexTo1D frm.row frm.col) JSVal.empty)
            (convert2DIndexTo1D tgt.row tgt.col + 1)))
          (convert2DIndexTo1D tgt.row tgt.col + 1) JSVal.empty := by
      unfold castleBoards
      rw [if_pos (by omega)]
    rw [hcb]
    have hlen2 : (jsSet (jsSet s.board (convert2DIndexTo1D tgt.row tgt.col)
        (jsGet s.board (convert2DIndexTo1D frm.row frm.col)))
        (convert2DIndexTo1D frm.row frm.col) JSVal.empty).length = 64 := by
      rw [length_jsSet, length_jsSet, hb]
    have hg2T : jsGet (jsSet (jsSet s.board (convert2DIndexTo1D tgt.row tgt.col)
        (jsGet s.board (convert2DIndexTo1D frm.row frm.col)))
        (convert2DIndexTo1D frm.row frm.col) JSVal.empty)
        (convert2DIndexTo1D tgt.row tgt.col) = JSVal.piece p := by
      rw [jsGet_jsSet_other _ _ _ _ (by omega),
        jsGet_jsSet_self _ _ _ hTb.1 (by rw [hb]; exact hTb.2), hpc]
    have hg2p : jsGet (jsSet (jsSet
        (jsSet (jsSet s.board (convert2DIndexTo1D tgt.row tgt.col)
          (jsGet s.board (convert2DIndexTo1D frm.row frm.col)))
          (convert2DIndexTo1D frm.row frm.col) JSVal.empty)
        (convert2DIndexTo1D tgt.row tgt.col - 1)
        (jsGet (jsSet (jsSet s.board (convert2DIndexTo1D tgt.row tgt.col)
          (jsGet s.board (convert2DIndexTo1D frm.row frm.col)))
          (convert2DIndexTo1D frm.row frm.col) JSVal.empty)
          (convert2DIndexTo1D tgt.row tgt.col + 1)))
        (convert2DIndexTo1D tgt.row tgt.col + 1) JSVal.empty)
        (convert2DIndexTo1D tgt.row tgt.col) = JSVal.piece p := by
      rw [jsGet_jsSet_other _ _ _ _ (by omega),
        jsGet_jsSet_other _ _ _ _ (by omega), hg2T]
    have hmark : markMoved (jsSet (jsSet
        (jsSet (jsSet s.board (convert2DIndexTo1D tgt.row tgt.col)
          (jsGet s.board (convert2DIndexTo1D frm.row frm.col)))
          (convert2DIndexTo1D frm.row frm.col) JSVal.empty)
        (convert2DIndexTo1D tgt.row tgt.col - 1)
        (jsGet (jsSet (jsSet s.board (convert2DIndexTo1D tgt.row tgt.col)
          (jsGet s.board (convert2DIndexTo1D frm.row frm.col)))
          (convert2DIndexTo1D frm.row frm.col) JSVal.empty)
          (convert2DIndexTo1D tgt.row tgt.col + 1)))
        (convert2DIndexTo1D tgt.row tgt.col + 1) JSVal.empty)
        (convert2DIndexTo1D tgt.row tgt.col) =
        jsSet (jsSet (jsSet
          (jsSet (jsSet s.board (convert2DIndexTo1D tgt.row tgt.col)
            (jsGet s.board (convert2DIndexTo1D frm.row frm.col)))
            (convert2DIndexTo1D frm.row frm.col) JSVal.empty)
          (convert2DIndexTo1D tgt.row tgt.col - 1)
          (jsGet (jsSet (jsSet s.board (convert2DIndexTo1D tgt.row tgt.col)
            (jsGet s.board (convert2DIndexTo1D frm.row frm.col)))
            (convert2DIndexTo1D frm.row frm.col) JSVal.empty)
            (convert2DIndexTo1D tgt.row tgt.col + 1)))
          (convert2DIndexTo1D tgt.row tgt.col + 1) JSVal.empty)
          (convert2DIndexTo1D tgt.row tgt.col)
          (JSVal.piece { p with hasMovedOnce := true }) := by
      unfold markMoved
      rw [hg2p]
    rw [hmark]
    have hlenB : (jsSet (jsSet
        (jsSet (jsSet s.board (convert2DIndexTo1D tgt.row tgt.col)
          (jsGet s.board (convert2DIndexTo1D frm.row frm.col)))
          (convert2DIndexTo1D frm.row frm.col) JSVal.empty)
        (convert2DIndexTo1D tgt.row tgt.col - 1)
        (jsGet (jsSet (jsSet s.board (convert2DIndexTo1D tgt.row tgt.col)
          (jsGet s.board (convert2DIndexTo1D frm.row frm.col)))
          (convert2DIndexTo1D frm.row frm.col) JSVal.empty)
          (convert2DIndexTo1D tgt.row tgt.col + 1)))
        (convert2DIndexTo1D tgt.row tgt.col + 1) JSVal.empty).length = 64 := by
      rw [length_jsSet, length_jsSet, hlen2]
    refine ⟨?_, ?_, ?_, ?_, ?_⟩
    · exact jsGet_jsSet_self _ _ _ hTb.1 (by rw [hlenB]; exact hTb.2)
    · rw [jsGet_jsSet_other _ _ _ _ (by omega),
        jsGet_jsSet_other _ _ _ _ (by omega),
        jsGet_jsSet_other _ _ _ _ (by omega),
        jsGet_jsSet_self _ _ _ hFb.1 (by rw [length_jsSet, hb]; exact hFb.2)]
    · intro _
      constructor
      · rw [jsGet_jsSet_other _ _ _ _ (by omega),
          jsGet_jsSet_other _ _ _ _ (by omega),
          jsGet_jsSet_self _ _ _ (by omega) (by rw [hlen2]; omega),
          jsGet_jsSet_other _ _ _ _ (by omega),
          jsGet_jsSet_other _ _ _ _ (by omega)]
      · rw [jsGet_jsSet_other _ _ _ _ (by omega),
          jsGet_jsSet_self _ _ _ (by omega) (by
            rw [length_jsSet, hlen2]; omega)]
    · intro habs
      exfalso
      omega
    · intro j hj1 hj2 hj3 hj4 hj5
      rw [jsGet_jsSet_other _ _ _ _ (Ne.symm hj1),
        jsGet_jsSet_other _ _ _ _ (Ne.symm hj4),
        jsGet_jsSet_other _ _ _ _ (Ne.symm hj3),
        jsGet_jsSet_other _ _ _ _ (Ne.symm hj2),
        jsGet_jsSet_other _ _ _ _ (Ne.symm hj1)]
  · -- leftward castle: T = F - 2
    have hTF : convert2DIndexTo1D tgt.row tgt.col =
        convert2DIndexTo1D frm.row frm.col - 2 := by
      rw [hTdef, hFdef, hrow]
      omega
    have hT0 : 0 ≤ convert2DIndexTo1D tgt.row tgt.col - 2 := by
      rw [hTdef]
      rcases (show ¬(tgt.row = 1 ∧ tgt.col ≤ 2) from hcornerL) with h
      omega
    have hcb : castleBoards s.board (convert2DIndexTo1D frm.row frm.col)
        (convert2DIndexTo1D tgt.row tgt.col) =
        jsSet (jsSet
          (jsSet (jsSet s.board (convert2DIndexTo1D tgt.row tgt.col)
            (jsGet s.board (convert2DIndexTo1D frm.row frm.col)))
            (convert2DIndexTo1D frm.row frm.col) JSVal.empty)
          (convert2DIndexTo1D tgt.row tgt.col + 1)
          (jsGet (jsSet (jsSet s.board (convert2DIndexTo1D tgt.row tgt.col)
            (jsGet s.board (convert2DIndexTo1D frm.row frm.col)))
            (convert2DIndexTo1D frm.row frm.col) JSVal.empty)
            (convert2DIndexTo1D tgt.row tgt.col - 2)))
          (convert2DIndexTo1D tgt.row tgt.col - 2) JSVal.empty := by
      unfold castleBoards
      rw [if_neg (by omega), if_pos (by omega)]
    rw [hcb]
    have hlen2 : (jsSet (jsSet s.board (convert2DIndexTo1D tgt.row tgt.col)
        (jsGet s.board (convert2DIndexTo1D frm.row frm.col)))
        (convert2DIndexTo1D frm.row frm.col) JSVal.empty).length = 64 := by
      rw [length_jsSet, length_jsSet, hb]
    have hg2T : jsGet (jsSet (jsSet s.board (convert2DIndexTo1D tgt.row tgt.col)
        (jsGet s.board (convert2DIndexTo1D frm.row frm.col)))
        (convert2DIndexTo1D frm.row frm.col) JSVal.empty)
        (convert2DIndexTo1D tgt.row tgt.col) = JSVal.piece p := by
      rw [jsGet_jsSet_other _ _ _ _ (by omega),
        jsGet_jsSet_self _ _ _ hTb.1 (by rw [hb]; exact hTb.2), hpc]
    have hg2p : jsGet (jsSet (jsSet
        (jsSet (jsSet s.board (convert2DIndexTo1D tgt.row tgt.col)
          (jsGet s.board (convert2DIndexTo1D frm.row frm.col)))
          (convert2DIndexTo1D frm.row frm.col) JSVal.empty)
        (convert2DIndexTo1D tgt.row tgt.col + 1)
        (jsGet (jsSet (jsSet s.board (convert2DIndexTo1D tgt.row tgt.col)
          (jsGet s.board (convert2DIndexTo1D frm.row frm.col)))
          (convert2DIndexTo1D frm.row frm.col) JSVal.empty)
          (convert2DIndexTo1D tgt.row tgt.col - 2)))
        (convert2DIndexTo1D tgt.row tgt.col - 2) JSVal.empty)
        (convert2DIndexTo1D tgt.row tgt.col) = JSVal.piece p := by
      rw [jsGet_jsSet_other _ _ _ _ (by omega),
        jsGet_jsSet_other _ _ _ _ (by omega), hg2T]
    have hmark : markMoved (jsSet (jsSet
        (jsSet (jsSet s.board (convert2DIndexTo1D tgt.row tgt.col)
          (jsGet s.board (convert2DIndexTo1D frm.row frm.col)))
          (convert2DIndexTo1D frm.row frm.col) JSVal.empty)
        (convert2DIndexTo1D tgt.row tgt.col + 1)
        (jsGet (jsSet (jsSet s.board (convert2DIndexTo1D tgt.row tgt.col)
          (jsGet s.board (convert2DIndexTo1D frm.row frm.col)))
          (convert2DIndexTo1D frm.row frm.col) JSVal.empty)
          (convert2DIndexTo1D tgt.row tgt.col - 2)))
        (convert2DIndexTo1D tgt.row tgt.col - 2) JSVal.empty)
        (convert2DIndexTo1D tgt.row tgt.col) =
        jsSet (jsSet (jsSet
          (jsSet (jsSet s.board (convert2DIndexTo1D tgt.row tgt.col)
            (jsGet s.board (convert2DIndexTo1D frm.row frm.col)))
            (convert2DIndexTo1D frm.row frm.col) JSVal.empty)
          (convert2DIndexTo1D tgt.row tgt.col + 1)
          (jsGet (jsSet (jsSet s.board (convert2DIndexTo1D tgt.row tgt.col)
            (jsGet s.board (convert2DIndexTo1D frm.row frm.col)))
            (convert2DIndexTo1D frm.row frm.col) JSVal.empty)
            (convert2DIndexTo1D tgt.row tgt.col - 2)))
          (convert2DIndexTo1D tgt.row tgt.col - 2) JSVal.empty)
          (convert2DIndexTo1D tgt.row tgt.col)
          (JSVal.piece { p with hasMovedOnce := true }) := by
      unfold markMoved
      rw [hg2p]
    rw [hmark]
    have hlenB : (jsSet (jsSet
        (jsSet (jsSet s.board (convert2DIndexTo1D tgt.row tgt.col)
          (jsGet s.board (convert2DIndexTo1D frm.row frm.col)))
          (convert2DIndexTo1D frm.row frm.col) JSVal.empty)
        (convert2DIndexTo1D tgt.row tgt.col + 1)
        (jsGet (jsSet (jsSet s.board (convert2DIndexTo1D tgt.row tgt.col)
          (jsGet s.board (convert2DIndexTo1D frm.row frm.col)))
          (convert2DIndexTo1D frm.row frm.col) JSVal.empty)
          (convert2DIndexTo1D tgt.row tgt.col - 2)))
        (convert2DIndexTo1D tgt.row tgt.col - 2) JSVal.empty).length = 64 := by
      rw [length_jsSet, length_jsSet, hlen2]
    refine ⟨?_, ?_, ?_, ?_, ?_⟩
    · exact jsGet_jsSet_self _ _ _ hTb.1 (by rw [hlenB]; exact hTb.2)
    · rw [jsGet_jsSet_other _ _ _ _ (by omega),
        jsGet_jsSet_other _ _ _ _ (by omega),
        jsGet_jsSet_other _ _ _ _ (by omega),
        jsGet_jsSet_self _ _ _ hFb.1 (by rw [length_jsSet, hb]; exact hFb.2)]
    · intro habs
      exfalso
      omega
    · intro _
      constructor
      · rw [jsGet_jsSet_other _ _ _ _ (by omega),
          jsGet_jsSet_other _ _ _ _ (by omega),
          jsGet_jsSet_self _ _ _ (by omega) (by rw [hlen2]; omega),
          jsGet_jsSet_other _ _ _ _ (by omega),
          jsGet_jsSet_other _ _ _ _ (by omega)]
      · rw [jsGet_jsSet_other _ _ _ _ (by omega),
          jsGet_jsSet_self _ _ _ (by omega) (by
            rw [length_jsSet, hlen2]; omega)]
    · intro j hj1 hj2 hj3 hj4 hj5
      rw [jsGet_jsSet_other _ _ _ _ (Ne.symm hj1),
        jsGet_jsSet_other _ _ _ _ (Ne.symm hj5),
        jsGet_jsSet_other _ _ _ _ (Ne.symm hj4),
        jsGet_jsSet_other _ _ _ _ (Ne.symm hj2),
        jsGet_jsSet_other _ _ _ _ (Ne.symm hj1)]

theorem claim1_castle_commit_witness :
    jsGet (Board.selectHighlightedCell claim1StateA).board
        (convert2DIndexTo1D 8 7) =
      JSVal.piece { name := IName.king, color := IColor.white,
                    hasMovedOnce := true } :=
  (claim1_castle_commit claim1StateA ⟨8, 5⟩ ⟨8, 7⟩
    (mkPiece IName.king IColor.white) (by decide) rfl rfl
    (by decide) (by decide) (by decide) (by decide)
    (by decide) (by decide) (by decide) (by decide)
    (by decide) rfl rfl (by decide) (by decide)
    (by decide) (by decide)).2.2.1

/-!
## Flag monotonicity (C10)

Pieces are anonymous board values; an operation respects flag
monotonicity when every piece value present afterwards with
`hasMovedOnce = false` was already present (somewhere) before — no cell
write ever manufactures or restores a flag-false piece.
-/

def boardFlagMono (pre post : List JSVal) : Prop :=
  ∀ (n : Nat) (p' : Piece), post.get? n = some (JSVal.piece p') →
    p'.hasMovedOnce = false → ∃ m, pre.get? m = some (JSVal.piece p')

theorem boardFlagMono_refl (b : List JSVal) : boardFlagMono b b :=
  fun n _ h _ => ⟨n, h⟩

theorem boardFlagMono_trans {a b c : List JSVal}
    (h1 : boardFlagMono a b) (h2 : boardFlagMono b c) : boardFlagMono a c := by
  intro n p' hn hf
  obtain ⟨m, hm⟩ := h2 n p' hn hf
  exact h1 m p' hm hf

theorem jsGet_piece_get? (b : List JSVal) (i : Int) (p : Piece)
    (h : jsGet b i = JSVal.piece p) :
    b.get? i.toNat = some (JSVal.piece p) := by
  unfold jsGet at h
  by_cases hi : 0 ≤ i
  · rw [if_pos hi] at h
    cases hg : b.get? i.toNat with
    | none => rw [hg] at h; cases h
    | some v =>
      rw [hg] at h
      simp at h
      rw [h]
  · rw [if_neg hi] at h; cases h

/-- A single JavaScript write respects flag monotonicity when the value
written is the empty marker, a value read back from the same board, or a
piece whose flag is already raised. -/
theorem boardFlagMono_jsSet (b : List JSVal) (i : Int) (v : JSVal)
    (hv : v = JSVal.empty ∨ (∃ j, v = jsGet b j) ∨
      (∃ q, v = JSVal.piece q ∧ q.hasMovedOnce = true)) :
    boardFlagMono b (jsSet b i v) := by
  intro n p' hn hf
  unfold jsSet at hn
  by_cases hi : 0 ≤ i
  · rw [if_pos hi] at hn
    by_cases hni : n = i.toNat
    · rw [hni] at hn
      have hlt : i.toNat < b.length := by
        by_contra hge
        push_neg at hge
        rw [List.get?_eq_none.mpr (by simpa using hge)] at hn
        cases hn
      rw [list_get?_set_self b i.toNat v hlt] at hn
      have hvn : v = JSVal.piece p' := Option.some.inj hn
      rcases hv with h | ⟨j, hj⟩ | ⟨q, hq, hqt⟩
      · rw [h] at hvn; cases hvn
      · rw [hj] at hvn
        exact ⟨j.toNat, jsGet_piece_get? b j p' hvn⟩
      · rw [hq] at hvn
        injection hvn with h'
        rw [h'] at hqt
        rw [hqt] at hf
        cases hf
    · rw [list_get?_set_other b i.toNat n v (fun h => hni h.symm)] at hn
      exact ⟨n, hn⟩
  · rw [if_neg hi] at hn
    exact ⟨n, hn⟩

theorem boardFlagMono_markMoved (b : List JSVal) (i : Int) :
    boardFlagMono b (markMoved b i) := by
  unfold markMoved
  rcases hg : jsGet b i with _ | _ | p
  · exact boardFlagMono_refl b
  · exact boardFlagMono_refl b
  · exact boardFlagMono_jsSet b i _
      (Or.inr (Or.inr ⟨{ p with hasMovedOnce := true }, rfl, rfl⟩))

theorem move_board_mono (s : BoardState) (frm tgt : Coord) :
    boardFlagMono s.board (Board.move s frm tgt).2.board := by
  unfold Board.move
  by_cases hany : (s.highlightedMoves.any fun m =>
      m.row = tgt.row ∧ m.col = tgt.col) = true
  · rw [if_pos hany]
    simp only [Board.deselectCells]
    have h1 : boardFlagMono s.board
        (jsSet s.board (convert2DIndexTo1D tgt.row tgt.col)
          (jsGet s.board (convert2DIndexTo1D frm.row frm.col))) :=
      boardFlagMono_jsSet _ _ _ (Or.inr (Or.inl ⟨_, rfl⟩))
    have h2 : boardFlagMono s.board
        (jsSet (jsSet s.board (convert2DIndexTo1D tgt.row tgt.col)
          (jsGet s.board (convert2DIndexTo1D frm.row frm.col)))
          (convert2DIndexTo1D frm.row frm.col) JSVal.empty) :=
      boardFlagMono_trans h1 (boardFlagMono_jsSet _ _ _ (Or.inl rfl))
    split
    · refine boardFlagMono_trans h2 ?_
      split
      · refine boardFlagMono_trans
          (boardFlagMono_jsSet _ _ _ (Or.inr (Or.inl ⟨_, rfl⟩)))
          (boardFlagMono_jsSet _ _ _ (Or.inl rfl))
      · split
        · refine boardFlagMono_trans
            (boardFlagMono_jsSet _ _ _ (Or.inr (Or.inl ⟨_, rfl⟩)))
            (boardFlagMono_jsSet _ _ _ (Or.inl rfl))
        · exact boardFlagMono_refl _
    · exact h2
  · rw [if_neg hany]
    exact boardFlagMono_refl _

theorem trySelectAt_board (s : BoardState) (row col index1D : Int) :
    (Board.trySelectAt s row col index1D).board = s.board := by
  unfold Board.trySelectAt
  dsimp only
  split
  · split <;> rfl
  · rfl

theorem select_board_mono (s : BoardState) :
    boardFlagMono s.board (Board.selectHighlightedCell s).board := by
  have htry : ∀ row col index1D,
      boardFlagMono s.board (Board.trySelectAt s row col index1D).board := by
    intro row col index1D
    rw [trySelectAt_board]
    exact boardFlagMono_refl _
  unfold Board.selectHighlightedCell
  rcases hsel : s.selectedCell with _ | sel
  · exact htry _ _ _
  · simp only
    split
    · exact boardFlagMono_refl _
    · split
      · split
        · exact boardFlagMono_trans (move_board_mono s sel s.highlightedCell)
            (boardFlagMono_markMoved _ _)
        · exact move_board_mono s sel s.highlightedCell
      · exact htry _ _ _

theorem step_board_mono (s : BoardState) (e : Event) :
    boardFlagMono s.board (step s e).board := by
  cases e with
  | up => exact boardFlagMono_refl _
  | down => exact boardFlagMono_refl _
  | left => exact boardFlagMono_refl _
  | right => exact boardFlagMono_refl _
  | confirm => exact select_board_mono s

/-- C10: `hasMovedOnce` is monotone.  A piece is constructed with the
flag down, and across any sequence of cursor-move and confirm events
every flag-false piece present afterwards was already present before:
no operation ever resets a raised flag (cell writes only copy existing
values, write the empty marker, or write a flag-raised piece). -/
theorem claim10_flag_monotone :
    (∀ (n : IName) (c : IColor), (mkPiece n c).hasMovedOnce = false) ∧
    (∀ (s : BoardState) (evs : List Event),
      boardFlagMono s.board ((evs.foldl step s).board)) := by
  refine ⟨fun n c => rfl, ?_⟩
  intro s evs
  induction evs generalizing s with
  | nil => exact boardFlagMono_refl _
  | cons e t ih =>
    simp only [List.foldl_cons]
    exact boardFlagMono_trans (step_board_mono s e) (ih (step s e))

theorem claim10_flag_monotone_witness :
    ∃ m, initState.board.get? m =
      some (JSVal.piece (mkPiece IName.pawn IColor.white)) :=
  claim10_flag_monotone.2 initState [Event.confirm] 52
    (mkPiece IName.pawn IColor.white) (by decide) (by decide)

/-!
## Reachability invariant (C9)
-/

/-- The 64-cell store never holds a JavaScript `undefined`. -/
def noUndef (b : List JSVal) : Prop := ∀ v ∈ b, v ≠ JSVal.undef

/-- Any king whose `hasMovedOnce` flag is still down sits on its starting
cell (flat index 4 = `(1,5)` or 60 = `(8,5)`).  This is what keeps every
reachable castling within the store. -/
def kingsHome (b : List JSVal) : Prop :=
  ∀ (i : Int) (p : Piece), jsGet b i = JSVal.piece p →
    p.name = IName.king → p.hasMovedOnce = false → i = 4 ∨ i = 60

def cursorOK (s : BoardState) : Prop :=
  1 ≤ s.highlightedCell.row ∧ s.highlightedCell.row ≤ 8 ∧
  1 ≤ s.highlightedCell.col ∧ s.highlightedCell.col ≤ 8

/-- The selection, when present, is on the board, points at a piece, and
the highlighted moves are the ones computed for that piece; without a
selection the highlighted moves are empty. -/
def selOK (s : BoardState) : Prop :=
  match s.selectedCell with
  | none => s.highlightedMoves = []
  | some sel =>
      1 ≤ sel.row ∧ sel.row ≤ 8 ∧ 1 ≤ sel.col ∧ sel.col ≤ 8 ∧
      ∃ p, jsGet s.board (convert2DIndexTo1D sel.row sel.col) =
          JSVal.piece p ∧
        s.highlightedMoves = Board.highlightMovesAt s.board sel p

def EngineInv (s : BoardState) : Prop :=
  s.board.length = 64 ∧ noUndef s.board ∧ cursorOK s ∧ selOK s ∧
    kingsHome s.board

theorem noUndef_jsGet {b : List JSVal} (h : noUndef b) (i : Int)
    (h0 : 0 ≤ i) (h1 : i < (b.length : Int)) : jsGet b i ≠ JSVal.undef := by
  unfold jsGet
  rw [if_pos h0]
  cases hg : b.get? i.toNat with
  | none =>
    rw [List.get?_eq_none] at hg
    omega
  | some v =>
    have hv : v ∈ b := List.get?_mem hg
    simpa using h v hv

theorem noUndef_jsSet {b : List JSVal} (h : noUndef b) (i : Int)
    (v : JSVal) (hv : v ≠ JSVal.undef) : noUndef (jsSet b i v) := by
  intro w hw
  unfold jsSet at hw
  by_cases hi : 0 ≤ i
  · rw [if_pos hi] at hw
    rcases List.mem_or_eq_of_mem_set hw with h2 | h2
    · exact h w h2
    · rw [h2]; exact hv
  · rw [if_neg hi] at hw
    exact h w hw

theorem noUndef_of_jsGet {b : List JSVal} (hlen : b.length = 64)
    (h : ∀ i : Int, 0 ≤ i → i < 64 → jsGet b i ≠ JSVal.undef) :
    noUndef b := by
  intro v hv
  obtain ⟨n, hn⟩ := List.get_of_mem hv
  have hget : b.get? (n : Nat) = some v := by
    rw [List.get?_eq_get n.2, hn]
  have hb : jsGet b ((n : Nat) : Int) = v := by
    unfold jsGet
    rw [if_pos (by omega)]
    simpa using congrArg (fun o => o.getD JSVal.undef) hget
  have := h ((n : Nat) : Int) (by omega) (by
    have := n.2
    omega)
  rw [hb] at this
  exact this

theorem EngineInv_init : EngineInv initState := by
  have hlen : arrangeBoard.length = 64 := by decide
  refine ⟨hlen, by unfold noUndef; decide, by unfold cursorOK; decide, rfl, ?_⟩
  intro i p hg hk hf
  have hg' : jsGet arrangeBoard i = JSVal.piece p := hg
  have hbound := jsGet_ne_undef_bounds arrangeBoard i (by rw [hg']; simp)
  have hB : ∀ n : Nat, n < 64 →
      (match jsGet arrangeBoard (n : Int) with
       | JSVal.piece q =>
           (!(q.name = IName.king ∧ q.hasMovedOnce = false : Bool)) ||
             decide (n = 4 ∨ n = 60)
       | _ => true) = true := by decide
  have hi64 : i < 64 := by omega
  have hcast : ((i.toNat : Nat) : Int) = i := by omega
  have hB' := hB i.toNat (by omega)
  rw [hcast, hg'] at hB'
  simp [hk, hf] at hB'
  omega

theorem coord_ext (a b : Coord) (h1 : a.row = b.row) (h2 : a.col = b.col) :
    a = b := by
  cases a; cases b
  simp_all

theorem markMoved_length (b : List JSVal) (i : Int) :
    (markMoved b i).length = b.length := by
  unfold markMoved
  rcases jsGet b i with _ | _ | p
  · rfl
  · rfl
  · exact length_jsSet b i _

theorem move_nomatch (s : BoardState) (frm tgt : Coord)
    (h : ¬(s.highlightedMoves.any fun m =>
      m.row = tgt.row ∧ m.col = tgt.col) = true) :
    Board.move s frm tgt = (false, Board.deselectCells s) := by
  unfold Board.move
  rw [if_neg h]

theorem move_plain_true (s : BoardState) (frm tgt : Coord) (p : Piece)
    (hpc : jsGet s.board (convert2DIndexTo1D frm.row frm.col) = JSVal.piece p)
    (hnc : ¬(p.name = IName.king ∧ (frm.col - tgt.col).natAbs = 2))
    (hmem : tgt ∈ s.highlightedMoves) :
    Board.move s frm tgt =
      (true, Board.deselectCells { s with board :=
        (jsSet (jsSet s.board (convert2DIndexTo1D tgt.row tgt.col)
          (jsGet s.board (convert2DIndexTo1D frm.row frm.col)))
          (convert2DIndexTo1D frm.row frm.col) JSVal.empty) }) := by
  have hany : (s.highlightedMoves.any fun m =>
      m.row = tgt.row ∧ m.col = tgt.col) = true :=
    List.any_eq_true.mpr ⟨tgt, hmem, by simp⟩
  unfold Board.move
  simp only [hpc, if_pos hany]
  rw [if_neg (by
    simp only [Bool.and_eq_true, decide_eq_true_eq]
    exact fun hx => hnc ⟨hx.1, hx.2⟩)]

/-- The board after a plain (non-castling) successful move plus the flag
flip: the moved piece with its flag raised at the destination, the
origin emptied, everything else untouched. -/
theorem plain_post_get (b : List JSVal) (F T : Int) (p : Piece)
    (hb : b.length = 64) (hF0 : 0 ≤ F) (hF : F < 64)
    (hT0 : 0 ≤ T) (hT : T < 64) (hFT : F ≠ T)
    (hpF : jsGet b F = JSVal.piece p) :
    ∀ j : Int,
      jsGet (markMoved (jsSet (jsSet b T (jsGet b F)) F JSVal.empty) T) j =
        if j = T then JSVal.piece { p with hasMovedOnce := true }
        else if j = F then JSVal.empty
        else jsGet b j := by
  have hlen1 : (jsSet b T (jsGet b F)).length = 64 := by
    rw [length_jsSet, hb]
  have hlen2 : (jsSet (jsSet b T (jsGet b F)) F JSVal.empty).length = 64 := by
    rw [length_jsSet, hlen1]
  have hgb2T : jsGet (jsSet (jsSet b T (jsGet b F)) F JSVal.empty) T =
      JSVal.piece p := by
    rw [jsGet_jsSet_other _ _ _ _ hFT,
      jsGet_jsSet_self _ _ _ hT0 (by omega), hpF]
  have hmark : markMoved (jsSet (jsSet b T (jsGet b F)) F JSVal.empty) T =
      jsSet (jsSet (jsSet b T (jsGet b F)) F JSVal.empty) T
        (JSVal.piece { p with hasMovedOnce := true }) := by
    unfold markMoved
    rw [hgb2T]
  intro j
  rw [hmark]
  by_cases hjT : j = T
  · rw [hjT, if_pos rfl]
    exact jsGet_jsSet_self _ _ _ hT0 (by omega)
  · rw [jsGet_jsSet_other _ _ _ _ (fun h => hjT h.symm), if_neg hjT]
    by_cases hjF : j = F
    · rw [hjF, if_pos rfl]
      exact jsGet_jsSet_self _ _ _ hF0 (by omega)
    · rw [jsGet_jsSet_other _ _ _ _ (fun h => hjF h.symm),
        jsGet_jsSet_other _ _ _ _ (fun h => hjT h.symm), if_neg hjF]

/-- The board after a successful castling move plus the king's flag
flip, cell by cell. -/
theorem castle_post_get (b : List JSVal) (F T : Int) (p : Piece)
    (hb : b.length = 64) (hF0 : 0 ≤ F) (hF : F < 64)
    (hT0 : 0 ≤ T) (hT : T < 64)
    (hpF : jsGet b F = JSVal.piece p)
    (hTF : (T = F + 2 ∧ T + 1 < 64) ∨ (T = F - 2 ∧ 0 ≤ T - 2)) :
    ∀ j : Int,
      jsGet (markMoved (castleBoards b F T) T) j =
        if j = T then JSVal.piece { p with hasMovedOnce := true }
        else if j = F then JSVal.empty
        else if T = F + 2 then
          (if j = T - 1 then jsGet b (T + 1)
           else if j = T + 1 then JSVal.empty
           else jsGet b j)
        else
          (if j = T + 1 then jsGet b (T - 2)
           else if j = T - 2 then JSVal.empty
           else jsGet b j) := by
  have hlen1 : (jsSet b T (jsGet b F)).length = 64 := by
    rw [length_jsSet, hb]
  have hlen2 : (jsSet (jsSet b T (jsGet b F)) F JSVal.empty).length = 64 := by
    rw [length_jsSet, hlen1]
  have hgb2T : jsGet (jsSet (jsSet b T (jsGet b F)) F JSVal.empty) T =
      JSVal.piece p := by
    rw [jsGet_jsSet_other _ _ _ _ (by omega),
      jsGet_jsSet_self _ _ _ hT0 (by omega), hpF]
  rcases hTF with ⟨hR, hR2⟩ | ⟨hL, hL2⟩
  · have hcb : castleBoards b F T =
        jsSet (jsSet (jsSet (jsSet b T (jsGet b F)) F JSVal.empty)
          (T - 1) (jsGet (jsSet (jsSet b T (jsGet b F)) F JSVal.empty)
            (T + 1))) (T + 1) JSVal.empty := by
      unfold castleBoards
      rw [if_pos (by omega)]
    have hlen3 : (jsSet (jsSet (jsSet b T (jsGet b F)) F JSVal.empty)
        (T - 1) (jsGet (jsSet (jsSet b T (jsGet b F)) F JSVal.empty)
          (T + 1))).length = 64 := by
      rw [length_jsSet, hlen2]
    have hlen4 : (jsSet (jsSet (jsSet (jsSet b T (jsGet b F)) F JSVal.empty)
        (T - 1) (jsGet (jsSet (jsSet b T (jsGet b F)) F JSVal.empty)
          (T + 1))) (T + 1) JSVal.empty).length = 64 := by
      rw [length_jsSet, hlen3]
    have hgBT : jsGet (jsSet (jsSet (jsSet (jsSet b T (jsGet b F)) F
        JSVal.empty) (T - 1) (jsGet (jsSet (jsSet b T (jsGet b F)) F
          JSVal.empty) (T + 1))) (T + 1) JSVal.empty) T = JSVal.piece p := by
      rw [jsGet_jsSet_other _ _ _ _ (by omega),
        jsGet_jsSet_other _ _ _ _ (by omega), hgb2T]
    have hmark : markMoved (castleBoards b F T) T =
        jsSet (jsSet (jsSet (jsSet (jsSet b T (jsGet b F)) F JSVal.empty)
          (T - 1) (jsGet (jsSet (jsSet b T (jsGet b F)) F JSVal.empty)
            (T + 1))) (T + 1) JSVal.empty) T
          (JSVal.piece { p with hasMovedOnce := true }) := by
      unfold markMoved
      rw [hcb, hgBT]
    intro j
    rw [hmark]
    by_cases hjT : j = T
    · rw [hjT, if_pos rfl]
      exact jsGet_jsSet_self _ _ _ hT0 (by omega)
    · rw [jsGet_jsSet_other _ _ _ _ (fun h => hjT h.symm), if_neg hjT,
        if_pos hR]
      by_cases hjF : j = F
      · rw [hjF, if_pos rfl,
          jsGet_jsSet_other _ _ _ _ (by omega),
          jsGet_jsSet_other _ _ _ _ (by omega)]
        exact jsGet_jsSet_self _ _ _ hF0 (by omega)
      · rw [if_neg hjF]
        by_cases hjm : j = T - 1
        · rw [hjm, if_pos rfl,
            jsGet_jsSet_other _ _ _ _ (by omega),
            jsGet_jsSet_self _ _ _ (by omega) (by omega),
            jsGet_jsSet_other _ _ _ _ (by omega),
            jsGet_jsSet_other _ _ _ _ (by omega)]
        · rw [if_neg hjm]
          by_cases hjp : j = T + 1
          · rw [hjp, if_pos rfl]
            exact jsGet_jsSet_self _ _ _ (by omega) (by omega)
          · rw [if_neg hjp,
              jsGet_jsSet_other _ _ _ _ (fun h => hjp h.symm),
              jsGet_jsSet_other _ _ _ _ (fun h => hjm h.symm),
              jsGet_jsSet_other _ _ _ _ (fun h => hjF h.symm),
              jsGet_jsSet_other _ _ _ _ (fun h => hjT h.symm)]
  · have hcb : castleBoards b F T =
        jsSet (jsSet (jsSet (jsSet b T (jsGet b F)) F JSVal.empty)
          (T + 1) (jsGet (jsSet (jsSet b T (jsGet b F)) F JSVal.empty)
            (T - 2))) (T - 2) JSVal.empty := by
      unfold castleBoards
      rw [if_neg (by omega), if_pos (by omega)]
    have hlen3 : (jsSet (jsSet (jsSet b T (jsGet b F)) F JSVal.empty)
        (T + 1) (jsGet (jsSet (jsSet b T (jsGet b F)) F JSVal.empty)
          (T - 2))).length = 64 := by
      rw [length_jsSet, hlen2]
    have hlen4 : (jsSet (jsSet (jsSet (jsSet b T (jsGet b F)) F JSVal.empty)
        (T + 1) (jsGet (jsSet (jsSet b T (jsGet b F)) F JSVal.empty)
          (T - 2))) (T - 2) JSVal.empty).length = 64 := by
      rw [length_jsSet, hlen3]
    have hgBT : jsGet (jsSet (jsSet (jsSet (jsSet b T (jsGet b F)) F
        JSVal.empty) (T + 1) (jsGet (jsSet (jsSet b T (jsGet b F)) F
          JSVal.empty) (T - 2))) (T - 2) JSVal.empty) T = JSVal.piece p := by
      rw [jsGet_jsSet_other _ _ _ _ (by omega),
        jsGet_jsSet_other _ _ _ _ (by omega), hgb2T]
    have hmark : markMoved (castleBoards b F T) T =
        jsSet (jsSet (jsSet (jsSet (jsSet b T (jsGet b F)) F JSVal.empty)
          (T + 1) (jsGet (jsSet (jsSet b T (jsGet b F)) F JSVal.empty)
            (T - 2))) (T - 2) JSVal.empty) T
          (JSVal.piece { p with hasMovedOnce := true }) := by
      unfold markMoved
      rw [hcb, hgBT]
    intro j
    rw [hmark]
    have hTne : ¬ T = F + 2 := by omega
    by_cases hjT : j = T
    · rw [hjT, if_pos rfl]
      exact jsGet_jsSet_self _ _ _ hT0 (by omega)
    · rw [jsGet_jsSet_other _ _ _ _ (fun h => hjT h.symm), if_neg hjT,
        if_neg hTne]
      by_cases hjF : j = F
      · rw [hjF, if_pos rfl,
          jsGet_jsSet_other _ _ _ _ (by omega),
          jsGet_jsSet_other _ _ _ _ (by omega)]
        exact jsGet_jsSet_self _ _ _ hF0 (by omega)
      · rw [if_neg hjF]
        by_cases hjp : j = T + 1
        · rw [hjp, if_pos rfl,
            jsGet_jsSet_other _ _ _ _ (by omega),
            jsGet_jsSet_self _ _ _ (by omega) (by omega),
            jsGet_jsSet_other _ _ _ _ (by omega),
            jsGet_jsSet_other _ _ _ _ (by omega)]
        · rw [if_neg hjp]
          by_cases hjm : j = T - 2
          · rw [hjm, if_pos rfl]
            exact jsGet_jsSet_self _ _ _ (by omega) (by omega)
          · rw [if_neg hjm,
              jsGet_jsSet_other _ _ _ _ (fun h => hjm h.symm),
              jsGet_jsSet_other _ _ _ _ (fun h => hjp h.symm),
              jsGet_jsSet_other _ _ _ _ (fun h => hjF h.symm),
              jsGet_jsSet_other _ _ _ _ (fun h => hjT h.symm)]

theorem castleBoards_length (b : List JSVal) (F T : Int) :
    (castleBoards b F T).length = b.length := by
  unfold castleBoards
  dsimp only
  split
  · rw [length_jsSet, length_jsSet, length_jsSet, length_jsSet]
  · split
    · rw [length_jsSet, length_jsSet, length_jsSet, length_jsSet]
    · rw [length_jsSet, length_jsSet]

theorem select_trySelect_eq_none (s : BoardState)
    (hsel : s.selectedCell = none) :
    Board.selectHighlightedCell s =
      Board.trySelectAt s s.highlightedCell.row s.highlightedCell.col
        (convert2DIndexTo1D s.highlightedCell.row s.highlightedCell.col) := by
  unfold Board.selectHighlightedCell
  rw [hsel]

theorem select_deselect_eq (s : BoardState) (sel : Coord)
    (hsel : s.selectedCell = some sel)
    (heq : sel.row = s.highlightedCell.row ∧
      sel.col = s.highlightedCell.col) :
    Board.selectHighlightedCell s = Board.deselectCells s := by
  unfold Board.selectHighlightedCell
  rw [hsel]
  simp only
  rw [if_pos heq]

theorem select_trySelect_eq_some (s : BoardState) (sel : Coord)
    (hsel : s.selectedCell = some sel)
    (hne : ¬(sel.row = s.highlightedCell.row ∧
      sel.col = s.highlightedCell.col))
    (hmode : Board.moveMode s = false) :
    Board.selectHighlightedCell s =
      Board.trySelectAt s s.highlightedCell.row s.highlightedCell.col
        (convert2DIndexTo1D s.highlightedCell.row s.highlightedCell.col) := by
  unfold Board.selectHighlightedCell
  rw [hsel]
  simp only
  rw [if_neg hne, if_neg (by rw [hmode]; simp)]

theorem select_commit_eq (s : BoardState) (sel : Coord)
    (hsel : s.selectedCell = some sel)
    (hne : ¬(sel.row = s.highlightedCell.row ∧
      sel.col = s.highlightedCell.col))
    (hmode : Board.moveMode s = true) :
    Board.selectHighlightedCell s =
      (if (Board.move s sel s.highlightedCell).1 = true ∧
          jsGet s.board (convert2DIndexTo1D sel.row sel.col) ≠ JSVal.empty
       then
        { (Board.move s sel s.highlightedCell).2 with
          board := markMoved (Board.move s sel s.highlightedCell).2.board
            (convert2DIndexTo1D s.highlightedCell.row
              s.highlightedCell.col) }
       else (Board.move s sel s.highlightedCell).2) := by
  unfold Board.selectHighlightedCell
  rw [hsel]
  simp only
  rw [if_neg hne, if_pos hmode]

theorem EngineInv_trySelect (s : BoardState) (h : EngineInv s) :
    EngineInv (Board.trySelectAt s s.highlightedCell.row
      s.highlightedCell.col
      (convert2DIndexTo1D s.highlightedCell.row s.highlightedCell.col)) := by
  obtain ⟨hlen, hnu, hcur, hsOK, hkh⟩ := h
  have hidx := convert_range hcur.1 hcur.2.1 hcur.2.2.1 hcur.2.2.2
  unfold Board.trySelectAt
  dsimp only
  split
  · rename_i hne
    rcases hg : jsGet s.board (convert2DIndexTo1D s.highlightedCell.row
        s.highlightedCell.col) with _ | _ | p
    · exact absurd hg (noUndef_jsGet hnu _ hidx.1 (by omega))
    · exact absurd hg hne
    · dsimp only
      refine ⟨hlen, hnu, hcur, ?_, hkh⟩
      exact ⟨hcur.1, hcur.2.1, hcur.2.2.1, hcur.2.2.2, p, hg, rfl⟩
  · exact ⟨hlen, hnu, hcur, hsOK, hkh⟩

theorem EngineInv_confirm (s : BoardState) (h : EngineInv s) :
    EngineInv (Board.selectHighlightedCell s) := by
  obtain ⟨hlen, hnu, hcur, hsOK, hkh⟩ := h
  rcases hsel : s.selectedCell with _ | sel
  · rw [select_trySelect_eq_none s hsel]
    exact EngineInv_trySelect s ⟨hlen, hnu, hcur, hsOK, hkh⟩
  · by_cases heq : sel.row = s.highlightedCell.row ∧
        sel.col = s.highlightedCell.col
    · rw [select_deselect_eq s sel hsel heq]
      exact ⟨hlen, hnu, hcur, rfl, hkh⟩
    · by_cases hmode : Board.moveMode s = true
      · -- commit: a move is attempted
        have hsOK' : 1 ≤ sel.row ∧ sel.row ≤ 8 ∧ 1 ≤ sel.col ∧ sel.col ≤ 8 ∧
            ∃ p, jsGet s.board (convert2DIndexTo1D sel.row sel.col) =
                JSVal.piece p ∧
              s.highlightedMoves = Board.highlightMovesAt s.board sel p := by
          unfold selOK at hsOK
          rw [hsel] at hsOK
          exact hsOK
        obtain ⟨hs1, hs2, hs3, hs4, p, hp, hmoves⟩ := hsOK'
        have hFidx := convert_range hs1 hs2 hs3 hs4
        have hTidx := convert_range hcur.1 hcur.2.1 hcur.2.2.1 hcur.2.2.2
        have hFdef : convert2DIndexTo1D sel.row sel.col =
            (sel.row - 1) * 8 + sel.col - 1 := rfl
        have hTdef : convert2DIndexTo1D s.highlightedCell.row
            s.highlightedCell.col =
            (s.highlightedCell.row - 1) * 8 + s.highlightedCell.col - 1 := rfl
        have hFT : convert2DIndexTo1D sel.row sel.col ≠
            convert2DIndexTo1D s.highlightedCell.row s.highlightedCell.col := by
          intro hc
          exact heq ⟨(convert_inj hs3 hs4 hcur.2.2.1 hcur.2.2.2 hc).1,
            (convert_inj hs3 hs4 hcur.2.2.1 hcur.2.2.2 hc).2⟩
        rw [select_commit_eq s sel hsel heq hmode]
        by_cases hany : (s.highlightedMoves.any fun m =>
            m.row = s.highlightedCell.row ∧
            m.col = s.highlightedCell.col) = true
        · have hmem : s.highlightedCell ∈ s.highlightedMoves := by
            obtain ⟨m, hm, hpm⟩ := List.any_eq_true.mp hany
            simp only [decide_eq_true_eq] at hpm
            rwa [coord_ext m s.highlightedCell hpm.1 hpm.2] at hm
          by_cases hcast : p.name = IName.king ∧
              (sel.col - s.highlightedCell.col).natAbs = 2
          · -- castling commit
            obtain ⟨hpk, hdist⟩ := hcast
            have hmem' : s.highlightedCell ∈
                Board.highlightMovesAt s.board ⟨sel.row, sel.col⟩ p := by
              rw [hmoves] at hmem
              exact hmem
            obtain ⟨hflag, hrow, hdisj⟩ := king_castle_inv s.board p sel.row
              sel.col hpk _ hmem' (by omega)
            have hhome := hkh (convert2DIndexTo1D sel.row sel.col) p hp hpk
              hflag
            have hTF : (convert2DIndexTo1D s.highlightedCell.row
                  s.highlightedCell.col =
                convert2DIndexTo1D sel.row sel.col + 2 ∧
                convert2DIndexTo1D s.highlightedCell.row
                  s.highlightedCell.col + 1 < 64) ∨
                (convert2DIndexTo1D s.highlightedCell.row
                  s.highlightedCell.col =
                convert2DIndexTo1D sel.row sel.col - 2 ∧
                0 ≤ convert2DIndexTo1D s.highlightedCell.row
                  s.highlightedCell.col - 2) := by
              rcases hdisj with ⟨hc, -⟩ | ⟨hc, -⟩
              · left
                constructor <;> omega
              · right
                constructor <;> omega
            rw [move_castle_true s sel s.highlightedCell p hp hpk hdist hmem]
            rw [if_pos ⟨rfl, by rw [hp]; simp⟩]
            simp only [Board.deselectCells]
            have hget := castle_post_get s.board
              (convert2DIndexTo1D sel.row sel.col)
              (convert2DIndexTo1D s.highlightedCell.row
                s.highlightedCell.col) p hlen hFidx.1 hFidx.2 hTidx.1
              hTidx.2 hp hTF
            refine ⟨?_, ?_, hcur, rfl, ?_⟩
            · rw [markMoved_length, castleBoards_length, hlen]
            · refine noUndef_of_jsGet
                (by rw [markMoved_length, castleBoards_length, hlen]) ?_
              intro i h0 h1
              rw [hget i]
              split
              · simp
              · split
                · simp
                · split
                  · split
                    · exact noUndef_jsGet hnu _ (by omega) (by omega)
                    · split
                      · simp
                      · exact noUndef_jsGet hnu _ (by omega) (by omega)
                  · split
                    · exact noUndef_jsGet hnu _ (by omega) (by omega)
                    · split
                      · simp
                      · exact noUndef_jsGet hnu _ (by omega) (by omega)
            · intro i q hq hqk hqf
              rw [hget i] at hq
              split at hq
              · injection hq with hq'
                rw [← hq'] at hqf
                simp at hqf
              · split at hq
                · cases hq
                · split at hq
                  · split at hq
                    · have := hkh _ q hq hqk hqf
                      omega
                    · split at hq
                      · cases hq
                      · have := hkh _ q hq hqk hqf
                        omega
                  · split at hq
                    · have := hkh _ q hq hqk hqf
                      omega
                    · split at hq
                      · cases hq
                      · have := hkh _ q hq hqk hqf
                        omega
          · -- plain commit
            rw [move_plain_true s sel s.highlightedCell p hp hcast hmem]
            rw [if_pos ⟨rfl, by rw [hp]; simp⟩]
            simp only [Board.deselectCells]
            have hget := plain_post_get s.board
              (convert2DIndexTo1D sel.row sel.col)
              (convert2DIndexTo1D s.highlightedCell.row
                s.highlightedCell.col) p hlen hFidx.1 hFidx.2 hTidx.1
              hTidx.2 hFT hp
            refine ⟨?_, ?_, hcur, rfl, ?_⟩
            · rw [markMoved_length, length_jsSet, length_jsSet, hlen]
            · refine noUndef_of_jsGet
                (by rw [markMoved_length, length_jsSet, length_jsSet, hlen]) ?_
              intro i h0 h1
              rw [hget i]
              split
              · simp
              · split
                · simp
                · exact noUndef_jsGet hnu _ (by omega) (by omega)
            · intro i q hq hqk hqf
              rw [hget i] at hq
              split at hq
              · injection hq with hq'
                rw [← hq'] at hqf
                simp at hqf
              · split at hq
                · cases hq
                · have := hkh _ q hq hqk hqf
                  omega
        · -- rejected commit
          rw [move_nomatch s sel s.highlightedCell hany]
          rw [if_neg (by rintro ⟨hc, -⟩; simp at hc)]
          exact ⟨hlen, hnu, hcur, rfl, hkh⟩
      · -- selection present but no highlighted moves: reselect branch
        have hmode' : Board.moveMode s = false := by
          cases hm : Board.moveMode s
          · rfl
          · exact absurd hm hmode
        rw [select_trySelect_eq_some s sel hsel heq hmode']
        exact EngineInv_trySelect s ⟨hlen, hnu, hcur, hsOK, hkh⟩

theorem EngineInv_step (s : BoardState) (e : Event) (h : EngineInv s) :
    EngineInv (step s e) := by
  obtain ⟨hlen, hnu, hcur, hsOK, hkh⟩ := h
  obtain ⟨hc1, hc2, hc3, hc4⟩ := hcur
  cases e with
  | up =>
    refine ⟨hlen, hnu, ?_, hsOK, hkh⟩
    unfold cursorOK step Board.moveUp
    dsimp only
    refine ⟨?_, ?_, ?_, ?_⟩ <;> first | (split <;> omega) | omega
  | down =>
    refine ⟨hlen, hnu, ?_, hsOK, hkh⟩
    unfold cursorOK step Board.moveDown
    dsimp only
    refine ⟨?_, ?_, ?_, ?_⟩ <;> first | (split <;> omega) | omega
  | left =>
    refine ⟨hlen, hnu, ?_, hsOK, hkh⟩
    unfold cursorOK step Board.moveLeft
    dsimp only
    refine ⟨?_, ?_, ?_, ?_⟩ <;> first | (split <;> omega) | omega
  | right =>
    refine ⟨hlen, hnu, ?_, hsOK, hkh⟩
    unfold cursorOK step Board.moveRight
    dsimp only
    refine ⟨?_, ?_, ?_, ?_⟩ <;> first | (split <;> omega) | omega
  | confirm =>
    exact EngineInv_confirm s ⟨hlen, hnu, ⟨hc1, hc2, hc3, hc4⟩, hsOK, hkh⟩

theorem EngineInv_foldl (evs : List Event) (s : BoardState)
    (h : EngineInv s) : EngineInv (evs.foldl step s) := by
  induction evs generalizing s with
  | nil => exact h
  | cons e t ih =>
    simp only [List.foldl_cons]
    exact ih (step s e) (EngineInv_step s e h)

/-- C9: in every state reachable from the initial arrangement by
cursor-move and confirm events, an existing selection always points at a
cell holding an occupant. -/
theorem claim9_selection_occupied (s : BoardState) (h : Reachable s)
    (sel : Coord) (hsel : s.selectedCell = some sel) :
    ∃ p, jsGet s.board (convert2DIndexTo1D sel.row sel.col) =
      JSVal.piece p := by
  obtain ⟨evs, rfl⟩ := h
  have hinv := EngineInv_foldl evs initState EngineInv_init
  have hOK := hinv.2.2.2.1
  unfold selOK at hOK
  rw [hsel] at hOK
  obtain ⟨-, -, -, -, p, hp, -⟩ := hOK
  exact ⟨p, hp⟩

theorem claim9_selection_occupied_witness :
    ∃ p, jsGet (List.foldl step initState [Event.confirm]).board
      (convert2DIndexTo1D 7 5) = JSVal.piece p :=
  claim9_selection_occupied (List.foldl step initState [Event.confirm])
    ⟨[Event.confirm], rfl⟩ ⟨7, 5⟩ (by decide)
